import Mathlib

/-!
# markdir: request routing of `renderer.ServeHTTP`

A shallow embedding of `markdir.go`.  Go strings are byte sequences and are
modelled as lists of byte values.  The standard-library functions the handler
calls (`path.Clean`, `strings.HasSuffix`, `http.Error`, the escaper that
`html/template` applies inside `<title>`) are embedded from the Go sources;
the file system, the markdown converter and the static file handler are
parameters.
-/

namespace Markdir

/-- A Go `string`: a sequence of bytes. -/
abbrev GoString := List Nat

/-- The bytes of an ASCII literal. -/
def str (s : String) : GoString := s.data.map Char.toNat

/-- The byte `'/'`. -/
abbrev slash : Nat := 47

/-- The byte `'.'`. -/
abbrev dot : Nat := 46

/-! ## `strings.HasSuffix` -/

/-- Go: `len(s) >= len(suffix) && s[len(s)-len(suffix):] == suffix`. -/
def HasSuffix (s suffix : GoString) : Bool :=
  decide (suffix.length ≤ s.length) && (s.drop (s.length - suffix.length) == suffix)

/-! ## `path.Clean`

The output buffer `out` of `path.Clean` (a `lazybuf`) is represented by the
bytes written so far, `buf[:w]`, so `out.w` is `out.length`.  The read index
`r` is represented by the unread rest `path[r:]` of the input. -/

/-- The backtracking of a `..` element, entered after `out.w--` with the new
`out.w` as the last argument:
`for out.w > dotdot && out.index(out.w) != '/' { out.w-- }`.
The result is the final `out.w`. -/
def backtrackTo (out : GoString) (dotdot : Nat) : Nat → Nat
  | 0 => 0
  | w + 1 =>
    if dotdot < w + 1 ∧ out.getD (w + 1) 0 ≠ slash then backtrackTo out dotdot w
    else w + 1

/-- The `..` case with `out.w > dotdot`: `out.w--`, the loop, and the
truncation of the buffer to the new `out.w`. -/
def backtrack (out : GoString) (dotdot : Nat) : GoString :=
  out.take (backtrackTo out dotdot (out.length - 1))

/-- The main loop `for r < n { switch { ... } }` of `path.Clean`.  The first
argument bounds the number of iterations; every iteration reads at least one
byte, so `len(path)` iterations always suffice. -/
def cleanLoop (rooted : Bool) : Nat → GoString → GoString → Nat → GoString
  | 0, _, out, _ => out
  | _ + 1, [], out, _ => out
  | fuel + 1, c :: rest, out, dotdot =>
    if c = slash then
      -- empty path element
      cleanLoop rooted fuel rest out dotdot
    else if c = dot ∧ (rest = [] ∨ rest.head? = some slash) then
      -- . element
      cleanLoop rooted fuel rest out dotdot
    else if c = dot ∧ rest.head? = some dot ∧
        (rest.tail = [] ∨ rest.tail.head? = some slash) then
      -- .. element: remove to last /
      if dotdot < out.length then
        cleanLoop rooted fuel rest.tail (backtrack out dotdot) dotdot
      else if rooted = false then
        let out1 := if 0 < out.length then out ++ [slash] else out
        let out2 := out1 ++ [dot, dot]
        cleanLoop rooted fuel rest.tail out2 out2.length
      else
        cleanLoop rooted fuel rest.tail out dotdot
    else
      -- real path element: add slash if needed, copy element
      let out1 :=
        if (rooted = true ∧ out.length ≠ 1) ∨ (rooted = false ∧ out.length ≠ 0) then
          out ++ [slash]
        else out
      cleanLoop rooted fuel ((c :: rest).dropWhile (fun b => decide (b ≠ slash)))
        (out1 ++ (c :: rest).takeWhile (fun b => decide (b ≠ slash))) dotdot

/-- Go `path.Clean`. -/
def Clean (path : GoString) : GoString :=
  if path = [] then [dot]
  else
    let rooted : Bool := decide (path.head? = some slash)
    let out :=
      if rooted then cleanLoop true path.length path.tail [slash] 1
      else cleanLoop false path.length path [] 0
    if out.length = 0 then [dot] else out


/-! ## Elements of a path

Slash-separated elements, used to state what `Clean` computes. -/

/-- The slash-separated elements of a path, as `strings.Split(p, "/")`. -/
def splitSlash : GoString → List GoString
  | [] => [[]]
  | c :: cs =>
    if c = slash then [] :: splitSlash cs
    else
      match splitSlash cs with
      | [] => [[c]]
      | e :: es => (c :: e) :: es

/-- Every element preceded by a slash. -/
def tailJoin : List GoString → GoString
  | [] => []
  | e :: es => slash :: (e ++ tailJoin es)

/-- The elements joined by slashes, as `strings.Join(es, "/")`. -/
def joinElems : List GoString → GoString
  | [] => []
  | e :: es => e ++ tailJoin es

/-- The effect of one loop iteration of `path.Clean` in terms of the element
`e` it reads, on the state `(out, dotdot)`. -/
def stepElem (rooted : Bool) (st : GoString × Nat) (e : GoString) : GoString × Nat :=
  if e = [] ∨ e = [dot] then st
  else if e = [dot, dot] then
    if st.2 < st.1.length then (backtrack st.1 st.2, st.2)
    else if rooted = false then
      ((if 0 < st.1.length then st.1 ++ [slash] else st.1) ++ [dot, dot],
        ((if 0 < st.1.length then st.1 ++ [slash] else st.1) ++ [dot, dot]).length)
    else st
  else
    ((if (rooted = true ∧ st.1.length ≠ 1) ∨ (rooted = false ∧ st.1.length ≠ 0) then
        st.1 ++ [slash]
      else st.1) ++ e, st.2)

/-- A real path element: non-empty, without slash, neither `.` nor `..`. -/
def IsName (e : GoString) : Prop := e ≠ [] ∧ slash ∉ e ∧ e ≠ [dot] ∧ e ≠ [dot, dot]

instance (e : GoString) : Decidable (IsName e) := by
  unfold IsName
  infer_instance

/-- A run of `k` elements `..`. -/
def dotdots (k : Nat) : List GoString := List.replicate k [dot, dot]

/-- The shape of a cleaned path: `.`, or a rooted path `/e1/.../en`, or a
relative path `../../e1/.../en`, with real elements `ei`. -/
def IsClean (q : GoString) : Prop :=
  q = [dot] ∨
  (∃ es : List GoString, (∀ e ∈ es, IsName e) ∧ q = slash :: joinElems es) ∨
  (∃ (k : Nat) (es : List GoString), (∀ e ∈ es, IsName e) ∧ dotdots k ++ es ≠ [] ∧
    q = joinElems (dotdots k ++ es))

/-- The loop state after `k` leading `..` elements and the real elements `es`
of a relative path. -/
def relState (k : Nat) (es : List GoString) : GoString × Nat :=
  (joinElems (dotdots k ++ es), (joinElems (dotdots k)).length)

/-- A rooted path without `.` or `..` element. -/
def IsRootedNoDots (q : GoString) : Prop :=
  q.head? = some slash ∧ ∀ e ∈ splitSlash q, e ≠ [dot] ∧ e ≠ [dot, dot]

instance (q : GoString) : Decidable (IsRootedNoDots q) := by
  unfold IsRootedNoDots
  infer_instance

/-! ## The environment of the handler -/

/-- The `Config` struct; `cfg` is a package-level variable, passed explicitly. -/
structure Config where
  wwwRoot : GoString
  daemonize : Bool
  bind : GoString

/-- The system error wrapped by a `*fs.PathError`. -/
inductive Errno
  | ENOENT
  | EACCES
  | EISDIR
  | ENOTDIR
  deriving DecidableEq, Repr

/-- The text of `syscall.Errno.Error()`. -/
def Errno.Error : Errno → GoString
  | .ENOENT => str "no such file or directory"
  | .EACCES => str "permission denied"
  | .EISDIR => str "is a directory"
  | .ENOTDIR => str "not a directory"

/-- A Go `error` as far as the handler inspects it: a `*fs.PathError`, which
is what `os.ReadFile` returns when opening or reading fails, or any error
value without a `*fs.PathError` in its chain, given by its text and the name
of its dynamic type. -/
inductive GoError
  | PathError (Op Path : GoString) (Err : Errno)
  | Other (msg typ : GoString)
  deriving DecidableEq, Repr

/-- The method `err.Error()`. -/
def GoError.Error : GoError → GoString
  | .PathError Op Path Err => Op ++ str " " ++ Path ++ str ": " ++ Err.Error
  | .Other msg _ => msg

/-- The verb `%T` applied to the error. -/
def GoError.typeName : GoError → GoString
  | .PathError _ _ _ => str "*fs.PathError"
  | .Other _ typ => typ

/-- Go: `errors.Is(err, fs.ErrNotExist)`: the file does not exist. -/
def GoError.IsNotExist : GoError → Bool
  | .PathError _ _ .ENOENT => true
  | _ => false

/-- Go: `errors.As(err, &pathErr)` with `var pathErr *os.PathError`; false for
a nil error. -/
def errorsAsPathError : Option GoError → Bool
  | some (.PathError _ _ _) => true
  | _ => false

/-- The file system as the handler observes it. -/
structure FileSystem where
  /-- Whether `os.Stat(name)` returns `err == nil`. -/
  Stat : GoString → Bool
  /-- The result of `os.ReadFile(name)`. -/
  ReadFile : GoString → Except GoError GoString

/-- The request fields the handler uses; `Path` is `req.URL.Path`. -/
structure Request where
  Path : GoString
  RemoteAddr : GoString
  Method : GoString

/-- The state of an `http.ResponseWriter`: the header map, the status code
once the header is written, and the body written so far. -/
structure ResponseWriter where
  Header : List (GoString × GoString)
  status : Option Nat
  body : GoString

/-- The response writer a request starts with. -/
def ResponseWriter.fresh : ResponseWriter := ⟨[], none, []⟩

/-- Go: `rw.Header().Set(key, value)`. -/
def ResponseWriter.Set (rw : ResponseWriter) (key value : GoString) : ResponseWriter :=
  { rw with Header := (key, value) :: rw.Header.filter (fun kv => kv.1 != key) }

/-- Go: `rw.Header().Get(key)`. -/
def ResponseWriter.Get (rw : ResponseWriter) (key : GoString) : Option GoString :=
  rw.Header.lookup key

/-- Go: `rw.WriteHeader(code)`; only the first call counts. -/
def ResponseWriter.WriteHeader (rw : ResponseWriter) (code : Nat) : ResponseWriter :=
  match rw.status with
  | none => { rw with status := some code }
  | some _ => rw

/-- Go: `rw.Write(data)`; writes the header with status 200 if it is not yet written. -/
def ResponseWriter.Write (rw : ResponseWriter) (data : GoString) : ResponseWriter :=
  let rw1 := rw.WriteHeader 200
  { rw1 with body := rw1.body ++ data }

/-- Go: `http.StatusText`. -/
def StatusText : Nat → GoString
  | 200 => str "OK"
  | 404 => str "Not Found"
  | 500 => str "Internal Server Error"
  | _ => []

/-- Go: `http.Error(w, error, code)`. -/
def Error (w : ResponseWriter) (error : GoString) (code : Nat) : ResponseWriter :=
  let w1 := w.Set (str "Content-Type") (str "text/plain; charset=utf-8")
  let w2 := w1.Set (str "X-Content-Type-Options") (str "nosniff")
  let w3 := w2.WriteHeader code
  w3.Write (error ++ str "\n")

/-! ## The page template -/

/-- The table `htmlReplacementTable` of `html/template`. -/
def htmlReplacementTable : Nat → Option GoString
  | 0 => some [239, 191, 189]
  | 34 => some (str "&#34;")
  | 38 => some (str "&amp;")
  | 39 => some (str "&#39;")
  | 43 => some (str "&#43;")
  | 60 => some (str "&lt;")
  | 62 => some (str "&gt;")
  | _ => none

/-- The escaper `html/template` applies to a string inside `<title>`
(`rcdataEscaper`, that is `htmlReplacer` with `htmlReplacementTable`). -/
def rcdataEscaper : GoString → GoString
  | [] => []
  | b :: s =>
    match htmlReplacementTable b with
    | some repl => repl ++ rcdataEscaper s
    | none => b :: rcdataEscaper s

/-- The template text before `{{ .Path }}`. -/
def templateHead : GoString := str "\n<html>\n\t<head>\n\t\t<title>"

/-- The template text between `{{ .Path }}` and `{{ .Body }}`. -/
def templateMiddle : GoString :=
  str ("</title>\n" ++
    "\t\t<link rel=\"stylesheet\" href=\"https://cdn.datatables.net/2.0.7/css/dataTables.dataTables.css\" />\n" ++
    "\t\t<script src=\"https://code.jquery.com/jquery-3.7.1.min.js\" integrity=\"sha256-/JqT3SQfawRcv/BIHPThkBvs0OEvtFFmqPF/lYI/Cxo=\"crossorigin=\"anonymous\"></script>\n" ++
    "\t\t<script src=\"https://cdn.datatables.net/2.0.7/js/dataTables.js\"></script>\n" ++
    "\t\t<script>\n" ++
    "\t\t\t$(document).ready(function() \x7b\n" ++
    "\t\t\t\t$(\x27table\x27).addClass(\x27display\x27);\n" ++
    "\t\t\t\t$(\x27table\x27).DataTable(\x7b\n" ++
    "\t\t\t\t\tsearching: true,\n" ++
    "\t\t\t\t\tordering: true,\n" ++
    "\t\t\t\t\tiDisplayLength: 200,\n" ++
    "\t\t\t\t\tstateSave:true\n" ++
    "\t\t\t\t\x7d);\n" ++
    "\t\t\t\x7d);\n" ++
    "\t\t</script>\n" ++
    "\t</head>\n" ++
    "\t<body>\n" ++
    "\t\t")

/-- The template text after `{{ .Body }}`. -/
def templateTail : GoString := str "\n\t</body>\n</html>\n"

/-- Go: `outputTemplate.Execute(rw, struct{ Path string; Body template.HTML })`:
the text nodes and the two actions are written in order; `Path` is escaped for
its `<title>` context, `Body` is of type `template.HTML` and written as is.
Writes to `rw` do not fail in this model, so `Execute` returns a nil error. -/
def Execute (rw : ResponseWriter) (Path Body : GoString) : ResponseWriter :=
  ((((rw.Write templateHead).Write (rcdataEscaper Path)).Write templateMiddle).Write
    Body).Write templateTail

/-! ## `renderer.ServeHTTP` -/

/-- The `renderer` struct: the directory `d` and the static file handler `h`,
`http.FileServer(d)`, given by its effect on the response writer. -/
structure renderer where
  d : GoString
  h : ResponseWriter → Request → ResponseWriter

/-- The calls the handler makes, in order: `os.Stat(name)`,
`os.ReadFile(name)`, `r.h.ServeHTTP(rw, req)` with the value of `req.URL.Path`,
a line given to `log`, `blackfriday.MarkdownCommon(input)`, and
`outputTemplate.Execute` with the fields `Path` and `Body`. -/
inductive Event
  | Stat (name : GoString)
  | ReadFile (name : GoString)
  | Static (Path : GoString)
  | Log (line : GoString)
  | MarkdownCommon (input : GoString)
  | Execute (Path Body : GoString)
  deriving DecidableEq, Repr

/-- Lines 112-121 of `ServeHTTP`: `req.URL.Path` after `path.Clean` and the
index rewrite, with the `os.Stat` calls made. -/
def resolve (cfg : Config) (fs : FileSystem) (reqPath : GoString) : GoString × List Event :=
  let p0 := Clean reqPath
  if HasSuffix p0 (str "/") then
    let p1 := if fs.Stat (cfg.wwwRoot ++ p0 ++ str "top.md") then p0 ++ str "top.md" else p0
    let p2 := if fs.Stat (cfg.wwwRoot ++ p1 ++ str "index.md") then p1 ++ str "index.md" else p1
    (p2, [Event.Stat (cfg.wwwRoot ++ p0 ++ str "top.md"),
      Event.Stat (cfg.wwwRoot ++ p1 ++ str "index.md")])
  else (p0, [])

/-- The resolved path: `req.URL.Path` after line 121. -/
def resolvedPath (cfg : Config) (fs : FileSystem) (reqPath : GoString) : GoString :=
  (resolve cfg fs reqPath).1

/-- What `ServeHTTP` leaves behind: the response writer, `req.URL.Path`, and
the calls made. -/
structure Outcome where
  rw : ResponseWriter
  Path : GoString
  trace : List Event

/-- The handler `func (r renderer) ServeHTTP(rw http.ResponseWriter, req *http.Request)`. -/
def ServeHTTP (cfg : Config) (fs : FileSystem) (MarkdownCommon : GoString → GoString)
    (r : renderer) (rw : ResponseWriter) (req : Request) : Outcome :=
  let res := resolve cfg fs req.Path
  let Path := res.1
  if (!HasSuffix Path (str ".md")) && (!HasSuffix Path (str "/guide")) then
    { rw := r.h rw { req with Path := Path }, Path := Path,
      trace := res.2 ++ [Event.Static Path] }
  else
    let result := fs.ReadFile (cfg.wwwRoot ++ Path)
    let err : Option GoError :=
      match result with
      | .error e => some e
      | .ok _ => none
    let tr1 := res.2 ++ [Event.ReadFile (cfg.wwwRoot ++ Path)]
    if errorsAsPathError err then
      { rw := Error rw (StatusText 404 ++ str ": " ++ Path) 404, Path := Path,
        trace := tr1 ++ [Event.Log (str "file not found: " ++
          (match err with
            | some e => e.Error
            | none => []))] }
    else
      let tr2 := tr1 ++ [Event.Log (req.RemoteAddr ++ str " " ++ req.Method ++ str " " ++
        str "\"" ++ Path ++ str "\"")]
      match result with
      | .error e =>
        { rw := Error rw (str "Internal Server Error: " ++ e.Error) 500, Path := Path,
          trace := tr2 ++ [Event.Log (str "Couldn\x27t read path " ++ Path ++ str ": " ++
            e.Error ++ str " (" ++ e.typeName ++ str ")")] }
      | .ok input =>
        let output := MarkdownCommon input
        let rw1 := rw.Set (str "Content-Type") (str "text/html; charset=utf-8")
        { rw := Execute rw1 Path output, Path := Path,
          trace := tr2 ++ [Event.MarkdownCommon input, Event.Execute Path output] }

/-! ## Example environments -/

/-- A configuration serving the directory `/srv`. -/
def exampleCfg : Config := ⟨str "/srv", false, str "127.0.0.1:19000"⟩

/-- A file system holding the given files, all readable; every other name
does not exist. -/
def filesOf (files : List (GoString × GoString)) : FileSystem where
  Stat := fun name => (files.lookup name).isSome
  ReadFile := fun name =>
    match files.lookup name with
    | some c => .ok c
    | none => .error (.PathError (str "open") name .ENOENT)

/-- A file system in which every file exists and none can be read. -/
def unreadableFs : FileSystem where
  Stat := fun _ => true
  ReadFile := fun name => .error (.PathError (str "open") name .EACCES)

/-- A static handler that answers every request with status 200 and no body. -/
def exampleRenderer : renderer := ⟨str "/srv", fun rw _ => rw.WriteHeader 200⟩

/-- A request for the given path. -/
def getRequest (p : GoString) : Request := ⟨p, str "127.0.0.1:4000", str "GET"⟩

/-- A stand-in for the markdown converter. -/
def exampleMarkdown : GoString → GoString := fun c => str "<h1>" ++ c.drop 2 ++ str "</h1>\n"


/-! ## Lemmas on `path.Clean` -/

theorem getD_append_add (pre l : GoString) (i : Nat) :
    (pre ++ l).getD (pre.length + i) 0 = l.getD i 0 := by
  rw [List.getD_append_right _ _ _ _ (by omega)]
  simp

theorem getD_ne_slash (e : GoString) (he : slash ∉ e) (i : Nat) (hi : i < e.length) :
    e.getD i 0 ≠ slash := by
  rw [List.getD_eq_getElem _ _ hi]
  intro h
  exact he (h ▸ List.getElem_mem hi)

theorem backtrackTo_slash (pre e : GoString) (dd : Nat) (he : slash ∉ e)
    (hdd : dd ≤ pre.length) (j : Nat) (hj : j ≤ e.length) :
    backtrackTo (pre ++ slash :: e) dd (pre.length + j) = pre.length := by
  induction j with
  | zero =>
    cases hp : pre.length with
    | zero => simp [backtrackTo]
    | succ w =>
      have h := getD_append_add pre (slash :: e) 0
      rw [hp] at h
      simp only [Nat.add_zero, backtrackTo]
      rw [if_neg]
      rintro ⟨_, h2⟩
      exact h2 (by simpa using h)
  | succ j ih =>
    have h := getD_append_add pre (slash :: e) (j + 1)
    rw [← Nat.add_assoc, backtrackTo, if_pos, ih (by omega)]
    refine ⟨by omega, ?_⟩
    rw [Nat.add_assoc, h]
    simpa using getD_ne_slash e he j (by omega)

theorem backtrack_slash (pre e : GoString) (dd : Nat) (he : slash ∉ e)
    (hdd : dd ≤ pre.length) : backtrack (pre ++ slash :: e) dd = pre := by
  unfold backtrack
  have hl : (pre ++ slash :: e).length - 1 = pre.length + e.length := by simp
  rw [hl, backtrackTo_slash pre e dd he hdd e.length (Nat.le_refl _)]
  simp

theorem backtrackTo_base (pre e : GoString) (dd : Nat) (he : slash ∉ e)
    (hdd : pre.length = dd) (j : Nat) (hj : j < e.length) :
    backtrackTo (pre ++ e) dd (pre.length + j) = pre.length := by
  induction j with
  | zero =>
    cases hp : pre.length with
    | zero => simp [backtrackTo]
    | succ w =>
      simp only [Nat.add_zero, backtrackTo]
      rw [if_neg]
      rintro ⟨h1, _⟩
      omega
  | succ j ih =>
    have h := getD_append_add pre e (j + 1)
    rw [← Nat.add_assoc, backtrackTo, if_pos, ih (by omega)]
    refine ⟨by omega, ?_⟩
    rw [Nat.add_assoc, h]
    exact getD_ne_slash e he (j + 1) hj

theorem backtrack_base (pre e : GoString) (dd : Nat) (he : slash ∉ e) (hne : e ≠ [])
    (hdd : pre.length = dd) : backtrack (pre ++ e) dd = pre := by
  unfold backtrack
  have hpos : 0 < e.length := List.length_pos.mpr hne
  have hl : (pre ++ e).length - 1 = pre.length + (e.length - 1) := by
    simp; omega
  rw [hl, backtrackTo_base pre e dd he hdd (e.length - 1) (by omega)]
  simp


theorem takeWhile_elem (e t : GoString) (he : slash ∉ e)
    (ht : t = [] ∨ t.head? = some slash) :
    (e ++ t).takeWhile (fun b => decide (b ≠ slash)) = e := by
  induction e with
  | nil =>
    rcases ht with rfl | ht
    · rfl
    · cases t with
      | nil => rfl
      | cons a t => simp at ht; simp [ht]
  | cons a e ih =>
    have ha : a ≠ slash := fun h => he (h ▸ List.mem_cons_self _ _)
    have he2 : slash ∉ e := fun h => he (List.mem_cons_of_mem _ h)
    simp [List.takeWhile, ha]
    simpa using ih he2

theorem dropWhile_elem (e t : GoString) (he : slash ∉ e)
    (ht : t = [] ∨ t.head? = some slash) :
    (e ++ t).dropWhile (fun b => decide (b ≠ slash)) = t := by
  induction e with
  | nil =>
    rcases ht with rfl | ht
    · rfl
    · cases t with
      | nil => rfl
      | cons a t => simp at ht; simp [ht]
  | cons a e ih =>
    have ha : a ≠ slash := fun h => he (h ▸ List.mem_cons_self _ _)
    have he2 : slash ∉ e := fun h => he (List.mem_cons_of_mem _ h)
    simp [List.dropWhile, ha]
    simpa using ih he2

/-- One iteration of the loop on a non-empty element followed by the end of
the input or by a slash. -/
theorem cleanLoop_elem (rooted : Bool) (fuel : Nat) (e t out : GoString) (dd : Nat)
    (he : slash ∉ e) (hne : e ≠ []) (ht : t = [] ∨ t.head? = some slash) :
    cleanLoop rooted (fuel + 1) (e ++ t) out dd =
      cleanLoop rooted fuel t (stepElem rooted (out, dd) e).1 (stepElem rooted (out, dd) e).2 := by
  cases e with
  | nil => exact absurd rfl hne
  | cons c e1 =>
    have hc : c ≠ slash := fun h => he (h ▸ List.mem_cons_self _ _)
    have he1 : slash ∉ e1 := fun h => he (List.mem_cons_of_mem _ h)
    have htk := takeWhile_elem (c :: e1) t he ht
    have hdr := dropWhile_elem (c :: e1) t he ht
    rw [List.cons_append] at htk hdr ⊢
    rw [cleanLoop, if_neg hc]
    by_cases h2 : c = dot ∧ (e1 ++ t = [] ∨ (e1 ++ t).head? = some slash)
    · -- the element is "."
      have h1 : e1 = [] := by
        cases e1 with
        | nil => rfl
        | cons a e2 =>
          have ha : a ≠ slash := fun h => he1 (h ▸ List.mem_cons_self _ _)
          rcases h2.2 with h | h
          · simp at h
          · simp at h; exact absurd h ha
      subst h1
      rw [if_pos h2]
      simp [stepElem, h2.1]
    · rw [if_neg h2]
      by_cases h3 : c = dot ∧ (e1 ++ t).head? = some dot ∧
          ((e1 ++ t).tail = [] ∨ (e1 ++ t).tail.head? = some slash)
      · -- the element is ".."
        have h1 : e1 = [dot] := by
          cases e1 with
          | nil =>
            rcases ht with rfl | ht
            · simp at h3
            · rw [List.nil_append, ht] at h3; simp at h3
          | cons a e2 =>
            have ha : a = dot := by simpa using h3.2.1
            cases e2 with
            | nil => rw [ha]
            | cons b e3 =>
              have hb : b ≠ slash := fun h =>
                he1 (h ▸ List.mem_cons_of_mem _ (List.mem_cons_self _ _))
              rcases h3.2.2 with h | h
              · simp at h
              · simp at h; exact absurd h hb
        subst h1
        rw [if_pos h3]
        obtain ⟨rfl, -⟩ := h3
        simp only [stepElem, List.cons_append, List.nil_append, List.tail_cons]
        by_cases hw : dd < out.length
        · simp [hw]
        · by_cases hr : rooted = false
          · simp [hw, hr]
          · simp [hw, hr]
      · -- a real path element
        rw [if_neg h3]
        have n1 : c :: e1 ≠ [dot] := by
          intro h
          injection h with ha hb
          subst ha hb
          apply h2
          refine ⟨rfl, ?_⟩
          rcases ht with rfl | ht
          · left; rfl
          · right; simpa using ht
        have n2 : c :: e1 ≠ [dot, dot] := by
          intro h
          injection h with ha hb
          subst ha hb
          apply h3
          refine ⟨rfl, rfl, ?_⟩
          rcases ht with rfl | ht
          · left; rfl
          · right; simpa using ht
        simp only [htk, hdr]
        simp [stepElem, n1, n2]

theorem cleanLoop_slash (rooted : Bool) (fuel : Nat) (t out : GoString) (dd : Nat) :
    cleanLoop rooted (fuel + 1) (slash :: t) out dd = cleanLoop rooted fuel t out dd := by
  rw [cleanLoop, if_pos rfl]

theorem cleanLoop_nil (rooted : Bool) (fuel : Nat) (out : GoString) (dd : Nat) :
    cleanLoop rooted fuel [] out dd = out := by
  cases fuel <;> rfl

theorem tailJoin_head (es : List GoString) :
    tailJoin es = [] ∨ (tailJoin es).head? = some slash := by
  cases es with
  | nil => left; rfl
  | cons e es => right; rfl

theorem stepElem_nil (rooted : Bool) (st : GoString × Nat) : stepElem rooted st [] = st := by
  simp [stepElem]

/-- The loop run on slash-separated elements is the fold of `stepElem` over
the elements, as soon as the iteration bound is at least the input length. -/
theorem cleanLoop_join (rooted : Bool) (es : List GoString) :
    ∀ (e : GoString) (fuel : Nat) (out : GoString) (dd : Nat),
      slash ∉ e → (∀ x ∈ es, slash ∉ x) → (e ++ tailJoin es).length ≤ fuel →
      cleanLoop rooted fuel (e ++ tailJoin es) out dd =
        (es.foldl (stepElem rooted) (stepElem rooted (out, dd) e)).1 := by
  induction es with
  | nil =>
    intro e fuel out dd he _ hf
    by_cases hne : e = []
    · subst hne
      simp [tailJoin, cleanLoop_nil, stepElem_nil]
    · cases fuel with
      | zero =>
        have : 0 < e.length := List.length_pos.mpr hne
        simp [tailJoin] at hf
        exact absurd hf hne
      | succ f =>
        rw [cleanLoop_elem rooted f e (tailJoin []) out dd he hne (tailJoin_head _)]
        simp [tailJoin, cleanLoop_nil]
  | cons e1 es ih =>
    intro e fuel out dd he hes hf
    have he1 : slash ∉ e1 := hes e1 (List.mem_cons_self _ _)
    have hes1 : ∀ x ∈ es, slash ∉ x := fun x hx => hes x (List.mem_cons_of_mem _ hx)
    by_cases hne : e = []
    · subst hne
      cases fuel with
      | zero => simp [tailJoin] at hf
      | succ f =>
        simp only [tailJoin, List.nil_append, List.foldl_cons, stepElem_nil]
        rw [cleanLoop_slash]
        apply ih e1 f out dd he1 hes1
        simp [tailJoin] at hf
        simpa using hf
    · have hpos : 0 < e.length := List.length_pos.mpr hne
      cases fuel with
      | zero => simp [tailJoin] at hf
      | succ f =>
        rw [cleanLoop_elem rooted f e (tailJoin (e1 :: es)) out dd he hne (tailJoin_head _)]
        cases f with
        | zero => simp [tailJoin] at hf; omega
        | succ f2 =>
          simp only [tailJoin, List.foldl_cons]
          rw [cleanLoop_slash]
          have := ih e1 f2 (stepElem rooted (out, dd) e).1 (stepElem rooted (out, dd) e).2
            he1 hes1 (by simp [tailJoin] at hf ⊢; omega)
          simpa using this


theorem splitSlash_ne_nil (p : GoString) : splitSlash p ≠ [] := by
  cases p with
  | nil => simp [splitSlash]
  | cons c cs =>
    unfold splitSlash
    split
    · simp
    · split <;> simp

theorem joinElems_splitSlash (p : GoString) : joinElems (splitSlash p) = p := by
  induction p with
  | nil => rfl
  | cons c cs ih =>
    unfold splitSlash
    split
    · next h =>
      cases hs : splitSlash cs with
      | nil => exact absurd hs (splitSlash_ne_nil cs)
      | cons e es =>
        rw [hs] at ih
        simp only [joinElems, tailJoin, List.nil_append] at ih ⊢
        rw [ih, h]
    · split
      · next hs => exact absurd hs (splitSlash_ne_nil cs)
      · next e es hs =>
        rw [hs] at ih
        simp only [joinElems, List.cons_append] at ih ⊢
        rw [ih]

theorem splitSlash_noslash (p : GoString) : ∀ e ∈ splitSlash p, slash ∉ e := by
  induction p with
  | nil => simp [splitSlash]
  | cons c cs ih =>
    unfold splitSlash
    split
    · intro e he
      rcases List.mem_cons.mp he with rfl | he
      · simp
      · exact ih e he
    · next hc =>
      split
      · next hs => exact absurd hs (splitSlash_ne_nil cs)
      · next e1 es hs =>
        rw [hs] at ih
        intro e he
        rcases List.mem_cons.mp he with rfl | he
        · intro hm
          rcases List.mem_cons.mp hm with h | h
          · exact hc h.symm
          · exact ih e1 (List.mem_cons_self _ _) h
        · exact ih e (List.mem_cons_of_mem _ he)

/-- The loop computes the fold of `stepElem` over the slash-separated elements
of its input. -/
theorem cleanLoop_split (rooted : Bool) (t : GoString) (fuel : Nat) (out : GoString) (dd : Nat)
    (hf : t.length ≤ fuel) :
    cleanLoop rooted fuel t out dd = ((splitSlash t).foldl (stepElem rooted) (out, dd)).1 := by
  cases hs : splitSlash t with
  | nil => exact absurd hs (splitSlash_ne_nil t)
  | cons e es =>
    have hj := joinElems_splitSlash t
    have hn := splitSlash_noslash t
    rw [hs] at hj hn
    simp only [joinElems] at hj
    have := cleanLoop_join rooted es e fuel out dd (hn e (List.mem_cons_self _ _))
      (fun x hx => hn x (List.mem_cons_of_mem _ hx)) (by rw [hj]; exact hf)
    rw [hj] at this
    rw [this, List.foldl_cons]

/-- The iteration bound is never reached: any bound of at least the input
length gives the result of the bound `len(path)`. -/
theorem cleanLoop_bound (rooted : Bool) (t : GoString) (fuel : Nat) (out : GoString) (dd : Nat)
    (hf : t.length ≤ fuel) :
    cleanLoop rooted fuel t out dd = cleanLoop rooted t.length t out dd := by
  rw [cleanLoop_split rooted t fuel out dd hf,
    cleanLoop_split rooted t t.length out dd (Nat.le_refl _)]

/-- The embedding agrees with rows of the table of Go's `TestClean`. -/
theorem Clean_examples :
    Clean (str "") = str "." ∧ Clean (str "abc/def") = str "abc/def" ∧
    Clean (str "../../abc") = str "../../abc" ∧ Clean (str "/") = str "/" ∧
    Clean (str "abc/") = str "abc" ∧ Clean (str "../../") = str "../.." ∧
    Clean (str "//abc//") = str "/abc" ∧ Clean (str "abc/./def") = str "abc/def" ∧
    Clean (str "abc/def/../ghi/../jkl") = str "abc/jkl" ∧
    Clean (str "abc/def/../..") = str "." ∧ Clean (str "/abc/def/../../..") = str "/" ∧
    Clean (str "abc/def/../../../ghi/jkl/../../../mno") = str "../../mno" ∧
    Clean (str "abc/../../././../def") = str "../../def" := by
  decide

theorem tailJoin_append (a b : List GoString) :
    tailJoin (a ++ b) = tailJoin a ++ tailJoin b := by
  induction a with
  | nil => rfl
  | cons e a ih => simp [tailJoin, ih]

theorem joinElems_append (a b : List GoString) (ha : a ≠ []) :
    joinElems (a ++ b) = joinElems a ++ tailJoin b := by
  cases a with
  | nil => exact absurd rfl ha
  | cons e a => simp [joinElems, tailJoin_append]

theorem joinElems_snoc (l : List GoString) (e : GoString) (hl : l ≠ []) :
    joinElems (l ++ [e]) = joinElems l ++ slash :: e := by
  rw [joinElems_append l [e] hl]
  simp [tailJoin]

theorem joinElems_single (e : GoString) : joinElems [e] = e := by
  simp [joinElems, tailJoin]

theorem joinElems_ne_nil (l : List GoString) (hl : l ≠ []) (h : ∀ e ∈ l, e ≠ []) :
    joinElems l ≠ [] := by
  cases l with
  | nil => exact absurd rfl hl
  | cons e l =>
    have := h e (List.mem_cons_self _ _)
    simp [joinElems, this]

theorem joinElems_length_le (a b : List GoString) :
    (joinElems a).length ≤ (joinElems (a ++ b)).length := by
  by_cases ha : a = []
  · subst ha; simp [joinElems]
  · rw [joinElems_append a b ha]; simp

theorem dotdots_succ (k : Nat) : dotdots (k + 1) = dotdots k ++ [[dot, dot]] := by
  unfold dotdots
  exact List.replicate_succ' _ _

theorem mem_dotdots {k : Nat} {e : GoString} (h : e ∈ dotdots k) : e = [dot, dot] :=
  (List.mem_replicate.mp h).2

theorem solid_of_mem {k : Nat} {es : List GoString} (hes : ∀ e ∈ es, IsName e)
    {e : GoString} (h : e ∈ dotdots k ++ es) : e ≠ [] ∧ slash ∉ e := by
  rcases List.mem_append.mp h with h | h
  · rw [mem_dotdots h]; decide
  · exact ⟨(hes e h).1, (hes e h).2.1⟩

theorem names_ne_nil {es : List GoString} (hes : ∀ e ∈ es, IsName e) : ∀ e ∈ es, e ≠ [] :=
  fun e h => (hes e h).1

theorem stepElem_name (rooted : Bool) (out : GoString) (dd : Nat) (e : GoString)
    (he : IsName e) :
    stepElem rooted (out, dd) e =
      ((if (rooted = true ∧ out.length ≠ 1) ∨ (rooted = false ∧ out.length ≠ 0) then
          out ++ [slash]
        else out) ++ e, dd) := by
  obtain ⟨h1, -, h3, h4⟩ := he
  simp [stepElem, h1, h3, h4]

theorem stepElem_dotdot (rooted : Bool) (out : GoString) (dd : Nat) :
    stepElem rooted (out, dd) [dot, dot] =
      if dd < out.length then (backtrack out dd, dd)
      else if rooted = false then
        ((if 0 < out.length then out ++ [slash] else out) ++ [dot, dot],
          ((if 0 < out.length then out ++ [slash] else out) ++ [dot, dot]).length)
      else (out, dd) := by
  unfold stepElem
  rw [if_neg (by decide), if_pos rfl]

/-! ### The loop on rooted paths -/

theorem stepR_name (es : List GoString) (e : GoString) (hes : ∀ x ∈ es, IsName x)
    (he : IsName e) :
    stepElem true (slash :: joinElems es, 1) e = (slash :: joinElems (es ++ [e]), 1) := by
  rw [stepElem_name true _ _ e he]
  by_cases h : es = []
  · subst h
    simp [joinElems, tailJoin]
  · have hne := joinElems_ne_nil es h (names_ne_nil hes)
    have hlen : (joinElems es).length ≠ 0 := fun h0 => hne (List.length_eq_zero.mp h0)
    rw [joinElems_snoc es e h]
    simp [hlen]

theorem stepR_dotdot_nil :
    stepElem true ([slash], 1) [dot, dot] = ([slash], 1) := by
  decide

theorem stepR_dotdot_snoc (es : List GoString) (x : GoString) (hes : ∀ e ∈ es, IsName e)
    (hx : IsName x) :
    stepElem true (slash :: joinElems (es ++ [x]), 1) [dot, dot] =
      (slash :: joinElems es, 1) := by
  have hx0 : 0 < x.length := List.length_pos.mpr hx.1
  by_cases h : es = []
  · subst h
    have hb := backtrack_base [slash] x 1 hx.2.1 hx.1 rfl
    have hlt : 1 < (slash :: joinElems ([] ++ [x])).length := by
      simp [joinElems_single]; omega
    rw [stepElem_dotdot, if_pos hlt]
    simp only [List.nil_append, joinElems_single] at hb ⊢
    rw [show slash :: x = [slash] ++ x from rfl, hb]
    rfl
  · have hb := backtrack_slash (slash :: joinElems es) x 1 hx.2.1 (by simp)
    have hlt : 1 < (slash :: joinElems (es ++ [x])).length := by
      rw [joinElems_snoc es x h]; simp
    rw [stepElem_dotdot, if_pos hlt, joinElems_snoc es x h]
    rw [show slash :: (joinElems es ++ slash :: x) = (slash :: joinElems es) ++ slash :: x
      from rfl, hb]

/-! ### The loop on relative paths -/

theorem stepU_name (k : Nat) (es : List GoString) (e : GoString) (hes : ∀ x ∈ es, IsName x)
    (he : IsName e) :
    stepElem false (relState k es) e = relState k (es ++ [e]) := by
  unfold relState
  rw [stepElem_name false _ _ e he]
  by_cases h : dotdots k ++ es = []
  · have h1 : dotdots k = [] := (List.append_eq_nil.mp h).1
    have h2 : es = [] := (List.append_eq_nil.mp h).2
    rw [h2, h1]
    simp [joinElems, tailJoin]
  · have hne := joinElems_ne_nil _ h (fun e he => (solid_of_mem hes he).1)
    have hlen : (joinElems (dotdots k ++ es)).length ≠ 0 :=
      fun h0 => hne (List.length_eq_zero.mp h0)
    rw [← List.append_assoc, joinElems_snoc _ e h]
    simp [hlen]

theorem stepU_dotdot_nil (k : Nat) :
    stepElem false (relState k []) [dot, dot] = relState (k + 1) [] := by
  unfold relState
  simp only [List.append_nil]
  rw [stepElem_dotdot, if_neg (Nat.lt_irrefl _), if_pos rfl]
  by_cases h : dotdots k = []
  · rw [dotdots_succ, h]
    simp [joinElems, tailJoin]
  · have hne := joinElems_ne_nil _ h (fun e he => by rw [mem_dotdots he]; decide)
    have hlen : 0 < (joinElems (dotdots k)).length := List.length_pos.mpr hne
    rw [dotdots_succ, joinElems_snoc _ _ h, if_pos hlen]
    simp

theorem stepU_dotdot_snoc (k : Nat) (es : List GoString) (x : GoString)
    (hx : IsName x) :
    stepElem false (relState k (es ++ [x])) [dot, dot] = relState k es := by
  have hx0 : 0 < x.length := List.length_pos.mpr hx.1
  unfold relState
  rw [stepElem_dotdot]
  by_cases h : dotdots k ++ es = []
  · have h1 : dotdots k = [] := (List.append_eq_nil.mp h).1
    have h2 : es = [] := (List.append_eq_nil.mp h).2
    have hb := backtrack_base [] x 0 hx.2.1 hx.1 rfl
    rw [h2, h1]
    have hj : joinElems ([] : List GoString) = [] := rfl
    simp only [List.nil_append, joinElems_single, hj, List.length_nil] at hb ⊢
    rw [if_pos hx0, hb]
  · have hle := joinElems_length_le (dotdots k) es
    have hb := backtrack_slash (joinElems (dotdots k ++ es)) x (joinElems (dotdots k)).length
      hx.2.1 hle
    rw [← List.append_assoc, joinElems_snoc _ x h, hb, if_pos]
    simp; omega


theorem elem_cases (e : GoString) (he : slash ∉ e) :
    e = [] ∨ e = [dot] ∨ e = [dot, dot] ∨ IsName e := by
  by_cases h1 : e = []
  · exact Or.inl h1
  · by_cases h2 : e = [dot]
    · exact Or.inr (Or.inl h2)
    · by_cases h3 : e = [dot, dot]
      · exact Or.inr (Or.inr (Or.inl h3))
      · exact Or.inr (Or.inr (Or.inr ⟨h1, he, h2, h3⟩))

theorem stepElem_dot (rooted : Bool) (st : GoString × Nat) : stepElem rooted st [dot] = st := by
  simp [stepElem]

/-- On a rooted path the loop state is always `/e1/.../en` with real elements. -/
theorem foldR_shape (els : List GoString) (hels : ∀ e ∈ els, slash ∉ e) :
    ∀ es : List GoString, (∀ e ∈ es, IsName e) →
      ∃ es2 : List GoString, (∀ e ∈ es2, IsName e) ∧
        els.foldl (stepElem true) (slash :: joinElems es, 1) = (slash :: joinElems es2, 1) := by
  induction els with
  | nil => intro es hes; exact ⟨es, hes, rfl⟩
  | cons e els ih =>
    intro es hes
    have hels2 : ∀ x ∈ els, slash ∉ x := fun x hx => hels x (List.mem_cons_of_mem _ hx)
    rw [List.foldl_cons]
    rcases elem_cases e (hels e (List.mem_cons_self _ _)) with rfl | rfl | rfl | hn
    · rw [stepElem_nil]; exact ih hels2 es hes
    · rw [stepElem_dot]; exact ih hels2 es hes
    · rcases List.eq_nil_or_concat' es with rfl | ⟨es1, x, rfl⟩
      · rw [show joinElems ([] : List GoString) = [] from rfl, stepR_dotdot_nil]
        exact ih hels2 [] hes
      · have h1 : ∀ e ∈ es1, IsName e := fun e he => hes e (List.mem_append_left _ he)
        have hx : IsName x := hes x (List.mem_append_right _ (List.mem_singleton_self _))
        rw [stepR_dotdot_snoc es1 x h1 hx]
        exact ih hels2 es1 h1
    · rw [stepR_name es e hes hn]
      apply ih hels2
      intro x hx
      rcases List.mem_append.mp hx with h | h
      · exact hes x h
      · rw [List.mem_singleton.mp h]; exact hn

/-- On a relative path the loop state is always `../../e1/.../en`. -/
theorem foldU_shape (els : List GoString) (hels : ∀ e ∈ els, slash ∉ e) :
    ∀ (k : Nat) (es : List GoString), (∀ e ∈ es, IsName e) →
      ∃ (k2 : Nat) (es2 : List GoString), (∀ e ∈ es2, IsName e) ∧
        els.foldl (stepElem false) (relState k es) = relState k2 es2 := by
  induction els with
  | nil => intro k es hes; exact ⟨k, es, hes, rfl⟩
  | cons e els ih =>
    intro k es hes
    have hels2 : ∀ x ∈ els, slash ∉ x := fun x hx => hels x (List.mem_cons_of_mem _ hx)
    rw [List.foldl_cons]
    rcases elem_cases e (hels e (List.mem_cons_self _ _)) with rfl | rfl | rfl | hn
    · rw [stepElem_nil]; exact ih hels2 k es hes
    · rw [stepElem_dot]; exact ih hels2 k es hes
    · rcases List.eq_nil_or_concat' es with rfl | ⟨es1, x, rfl⟩
      · rw [stepU_dotdot_nil]
        exact ih hels2 (k + 1) [] hes
      · have h1 : ∀ e ∈ es1, IsName e := fun e he => hes e (List.mem_append_left _ he)
        have hx : IsName x := hes x (List.mem_append_right _ (List.mem_singleton_self _))
        rw [stepU_dotdot_snoc k es1 x hx]
        exact ih hels2 k es1 h1
    · rw [stepU_name k es e hes hn]
      apply ih hels2
      intro x hx
      rcases List.mem_append.mp hx with h | h
      · exact hes x h
      · rw [List.mem_singleton.mp h]; exact hn

/-- Replaying real elements appends them. -/
theorem foldR_names (es2 : List GoString) (h2 : ∀ e ∈ es2, IsName e) :
    ∀ es : List GoString, (∀ e ∈ es, IsName e) →
      es2.foldl (stepElem true) (slash :: joinElems es, 1) =
        (slash :: joinElems (es ++ es2), 1) := by
  induction es2 with
  | nil => intro es _; simp
  | cons e es2 ih =>
    intro es hes
    have he : IsName e := h2 e (List.mem_cons_self _ _)
    rw [List.foldl_cons, stepR_name es e hes he,
      ih (fun x hx => h2 x (List.mem_cons_of_mem _ hx))]
    · simp
    · intro x hx
      rcases List.mem_append.mp hx with h | h
      · exact hes x h
      · rw [List.mem_singleton.mp h]; exact he

theorem foldU_names (k : Nat) (es2 : List GoString) (h2 : ∀ e ∈ es2, IsName e) :
    ∀ es : List GoString, (∀ e ∈ es, IsName e) →
      es2.foldl (stepElem false) (relState k es) = relState k (es ++ es2) := by
  induction es2 with
  | nil => intro es _; simp
  | cons e es2 ih =>
    intro es hes
    have he : IsName e := h2 e (List.mem_cons_self _ _)
    rw [List.foldl_cons, stepU_name k es e hes he,
      ih (fun x hx => h2 x (List.mem_cons_of_mem _ hx))]
    · simp
    · intro x hx
      rcases List.mem_append.mp hx with h | h
      · exact hes x h
      · rw [List.mem_singleton.mp h]; exact he

theorem foldU_dotdots (j : Nat) :
    ∀ k : Nat, (dotdots j).foldl (stepElem false) (relState k []) = relState (k + j) [] := by
  induction j with
  | zero => intro k; rfl
  | succ j ih =>
    intro k
    rw [show dotdots (j + 1) = [dot, dot] :: dotdots j from rfl, List.foldl_cons,
      stepU_dotdot_nil, ih (k + 1)]
    congr 1
    omega

/-! ### `Clean` in terms of the fold -/

theorem Clean_rooted (t : GoString) :
    Clean (slash :: t) =
      ((splitSlash t).foldl (stepElem true) ([slash], 1)).1 ∨
    (((splitSlash t).foldl (stepElem true) ([slash], 1)).1 = [] ∧ Clean (slash :: t) = [dot]) := by
  unfold Clean
  rw [if_neg (by simp)]
  simp only [List.head?_cons, decide_True, if_true, List.tail_cons]
  rw [cleanLoop_split true t _ [slash] 1 (by simp)]
  by_cases h : ((splitSlash t).foldl (stepElem true) ([slash], 1)).1.length = 0
  · right
    exact ⟨List.length_eq_zero.mp h, by rw [if_pos h]⟩
  · left
    rw [if_neg h]

theorem Clean_rooted_shape (t : GoString) :
    ∃ es : List GoString, (∀ e ∈ es, IsName e) ∧ Clean (slash :: t) = slash :: joinElems es := by
  obtain ⟨es, hes, h⟩ := foldR_shape (splitSlash t) (splitSlash_noslash t) [] (by simp)
  rw [show joinElems ([] : List GoString) = [] from rfl] at h
  rcases Clean_rooted t with hc | ⟨h0, -⟩
  · exact ⟨es, hes, by rw [hc, h]⟩
  · rw [h] at h0; simp at h0

theorem Clean_relative (p : GoString) (hp : p ≠ []) (hr : p.head? ≠ some slash) :
    Clean p =
      if ((splitSlash p).foldl (stepElem false) ([], 0)).1.length = 0 then [dot]
      else ((splitSlash p).foldl (stepElem false) ([], 0)).1 := by
  unfold Clean
  rw [if_neg hp]
  simp only [hr, decide_False, Bool.false_eq_true, if_false]
  rw [cleanLoop_split false p _ [] 0 (Nat.le_refl _)]

theorem relState_zero : relState 0 [] = ([], 0) := rfl

/-- Every result of `Clean` has the shape `IsClean`. -/
theorem Clean_isClean (p : GoString) : IsClean (Clean p) := by
  cases p with
  | nil => left; rfl
  | cons c t =>
    by_cases hc : c = slash
    · subst hc
      obtain ⟨es, hes, h⟩ := Clean_rooted_shape t
      exact Or.inr (Or.inl ⟨es, hes, h⟩)
    · have hr : (c :: t).head? ≠ some slash := by simpa using hc
      rw [Clean_relative (c :: t) (by simp) hr]
      obtain ⟨k, es, hes, h⟩ := foldU_shape (splitSlash (c :: t)) (splitSlash_noslash _) 0 []
        (by simp)
      rw [relState_zero] at h
      rw [h]
      by_cases h0 : (relState k es).1.length = 0
      · rw [if_pos h0]; left; rfl
      · rw [if_neg h0]
        refine Or.inr (Or.inr ⟨k, es, hes, ?_, rfl⟩)
        intro hnil
        apply h0
        simp [relState, hnil, joinElems]

theorem cleanLoop_joinElems (rooted : Bool) (l : List GoString) (fuel : Nat) (out : GoString)
    (dd : Nat) (hl : ∀ x ∈ l, slash ∉ x) (hf : (joinElems l).length ≤ fuel) :
    cleanLoop rooted fuel (joinElems l) out dd = (l.foldl (stepElem rooted) (out, dd)).1 := by
  cases l with
  | nil => simp [joinElems, cleanLoop_nil]
  | cons e l =>
    rw [List.foldl_cons]
    exact cleanLoop_join rooted l e fuel out dd (hl e (List.mem_cons_self _ _))
      (fun x hx => hl x (List.mem_cons_of_mem _ hx)) hf

/-- A path of the shape `IsClean` is a fixed point of `Clean`. -/
theorem Clean_of_isClean (q : GoString) (hq : IsClean q) : Clean q = q := by
  rcases hq with rfl | ⟨es, hes, rfl⟩ | ⟨k, es, hes, hne, rfl⟩
  · decide
  · unfold Clean
    rw [if_neg (by simp)]
    simp only [List.head?_cons, decide_True, if_true, List.tail_cons]
    rw [cleanLoop_joinElems true es _ [slash] 1 (fun x hx => (hes x hx).2.1) (by simp)]
    have := foldR_names es hes [] (by simp)
    rw [show joinElems ([] : List GoString) = [] from rfl] at this
    rw [this]
    simp
  · have hsolid : ∀ x ∈ dotdots k ++ es, x ≠ [] ∧ slash ∉ x := fun x hx => solid_of_mem hes hx
    have hqne : joinElems (dotdots k ++ es) ≠ [] :=
      joinElems_ne_nil _ hne (fun x hx => (hsolid x hx).1)
    have hhead : (joinElems (dotdots k ++ es)).head? ≠ some slash := by
      cases hl : dotdots k ++ es with
      | nil => exact absurd hl hne
      | cons e l =>
        have he := hsolid e (by rw [hl]; exact List.mem_cons_self _ _)
        cases e with
        | nil => exact absurd rfl he.1
        | cons a e =>
          simp only [joinElems, List.cons_append, List.head?_cons]
          intro h
          injection h with h
          exact he.2 (h ▸ List.mem_cons_self _ _)
    unfold Clean
    rw [if_neg hqne]
    simp only [hhead, decide_False, Bool.false_eq_true, if_false]
    rw [cleanLoop_joinElems false _ _ [] 0 (fun x hx => (hsolid x hx).2) (Nat.le_refl _)]
    rw [List.foldl_append, ← relState_zero, foldU_dotdots k 0, foldU_names _ es hes [] (by simp)]
    simp only [Nat.zero_add, List.nil_append]
    rw [if_neg]
    · rfl
    · intro h0
      exact hqne (List.length_eq_zero.mp h0)

theorem Clean_fixed (p : GoString) : Clean (Clean p) = Clean p :=
  Clean_of_isClean _ (Clean_isClean p)
/-! ## Lemmas on suffixes and elements -/

theorem str_slash : str "/" = [slash] := rfl

theorem HasSuffix_iff (s suffix : GoString) :
    HasSuffix s suffix = true ↔ ∃ t, s = t ++ suffix := by
  unfold HasSuffix
  constructor
  · intro h
    simp only [Bool.and_eq_true, decide_eq_true_eq, beq_iff_eq] at h
    refine ⟨s.take (s.length - suffix.length), ?_⟩
    conv_lhs => rw [← List.take_append_drop (s.length - suffix.length) s]
    rw [h.2]
  · rintro ⟨t, rfl⟩
    simp

theorem no_slash_suffix (a x : GoString) (hx : x ≠ []) (hs : slash ∉ x) :
    HasSuffix (a ++ x) [slash] = false := by
  cases h : HasSuffix (a ++ x) [slash] with
  | false => rfl
  | true =>
    exfalso
    obtain ⟨t, ht⟩ := (HasSuffix_iff _ _).mp h
    rcases List.eq_nil_or_concat' x with rfl | ⟨x1, y, rfl⟩
    · exact hx rfl
    · rw [← List.append_assoc] at ht
      have := (List.append_inj' ht rfl).2
      injection this with hy
      exact hs (by simp [hy])

theorem joinElems_concat (l : List GoString) (x : GoString) :
    ∃ a, joinElems (l ++ [x]) = a ++ x := by
  by_cases h : l = []
  · subst h; exact ⟨[], by simp [joinElems_single]⟩
  · exact ⟨joinElems l ++ [slash], by rw [joinElems_snoc l x h]; simp⟩

/-- A cleaned path ends with a slash only if it is the root. -/
theorem isClean_slash_suffix (q : GoString) (hq : IsClean q)
    (hs : HasSuffix q [slash] = true) : q = [slash] := by
  rcases hq with rfl | ⟨es, hes, rfl⟩ | ⟨k, es, hes, hne, rfl⟩
  · exact absurd hs (by decide)
  · rcases List.eq_nil_or_concat' es with rfl | ⟨es1, x, rfl⟩
    · rfl
    · exfalso
      obtain ⟨a, ha⟩ := joinElems_concat es1 x
      have hx : IsName x := hes x (List.mem_append_right _ (List.mem_singleton_self _))
      have := no_slash_suffix (slash :: a) x hx.1 hx.2.1
      rw [ha, ← List.cons_append, this] at hs
      exact Bool.noConfusion hs
  · exfalso
    rcases List.eq_nil_or_concat' (dotdots k ++ es) with h | ⟨l1, x, h⟩
    · exact hne h
    · obtain ⟨a, ha⟩ := joinElems_concat l1 x
      have hx := solid_of_mem hes (show x ∈ dotdots k ++ es by rw [h]; simp)
      have := no_slash_suffix a x hx.1 hx.2
      rw [h, ha, this] at hs
      exact Bool.noConfusion hs

theorem splitSlash_elem (e : GoString) (he : slash ∉ e) : splitSlash e = [e] := by
  induction e with
  | nil => rfl
  | cons c e ih =>
    have hc : c ≠ slash := fun h => he (h ▸ List.mem_cons_self _ _)
    have he2 : slash ∉ e := fun h => he (List.mem_cons_of_mem _ h)
    rw [splitSlash, if_neg hc, ih he2]

theorem splitSlash_elem_append (e t : GoString) (he : slash ∉ e) :
    splitSlash (e ++ slash :: t) = e :: splitSlash t := by
  induction e with
  | nil => simp [splitSlash]
  | cons c e ih =>
    have hc : c ≠ slash := fun h => he (h ▸ List.mem_cons_self _ _)
    have he2 : slash ∉ e := fun h => he (List.mem_cons_of_mem _ h)
    rw [List.cons_append, splitSlash, if_neg hc, ih he2]

theorem splitSlash_tailJoin (es : List GoString) :
    ∀ e : GoString, slash ∉ e → (∀ x ∈ es, slash ∉ x) →
      splitSlash (e ++ tailJoin es) = e :: es := by
  induction es with
  | nil => intro e he _; simpa [tailJoin] using splitSlash_elem e he
  | cons e1 es ih =>
    intro e he hes
    rw [tailJoin, splitSlash_elem_append e _ he,
      ih e1 (hes e1 (List.mem_cons_self _ _)) (fun x hx => hes x (List.mem_cons_of_mem _ hx))]

/-- A rooted path of real elements has no `.` or `..` element. -/
theorem rooted_names_noDots (es : List GoString) (hes : ∀ e ∈ es, IsName e) :
    IsRootedNoDots (slash :: joinElems es) := by
  refine ⟨rfl, ?_⟩
  have h0 : splitSlash (slash :: joinElems es) = [] :: splitSlash (joinElems es) := by
    simp [splitSlash]
  rw [h0]
  intro e he
  rcases List.mem_cons.mp he with rfl | he
  · decide
  · cases es with
    | nil =>
      have : e = [] := by simpa [joinElems, splitSlash] using he
      subst this
      decide
    | cons e1 es1 =>
      rw [joinElems, splitSlash_tailJoin es1 e1 (hes e1 (List.mem_cons_self _ _)).2.1
        (fun x hx => (hes x (List.mem_cons_of_mem _ hx)).2.1)] at he
      exact ⟨(hes e he).2.2.1, (hes e he).2.2.2⟩

theorem Clean_rooted_noDots (p : GoString) (hp : p.head? = some slash) :
    IsRootedNoDots (Clean p) := by
  cases p with
  | nil => simp at hp
  | cons c t =>
    have hc : c = slash := by simpa using hp
    subst hc
    obtain ⟨es, hes, h⟩ := Clean_rooted_shape t
    rw [h]
    exact rooted_names_noDots es hes

/-! ## Lemmas on the index rewrite -/

theorem resolve_not_root (cfg : Config) (fs : FileSystem) (p : GoString)
    (h : Clean p ≠ [slash]) : resolve cfg fs p = (Clean p, []) := by
  unfold resolve
  have hs : HasSuffix (Clean p) (str "/") = false := by
    cases hh : HasSuffix (Clean p) (str "/") with
    | false => rfl
    | true => exact absurd (isClean_slash_suffix _ (Clean_isClean p) hh) h
  simp only [hs, Bool.false_eq_true, if_false]

theorem resolve_root (cfg : Config) (fs : FileSystem) (p : GoString)
    (h : Clean p = [slash]) :
    resolve cfg fs p =
      ((if fs.Stat (cfg.wwwRoot ++ (if fs.Stat (cfg.wwwRoot ++ [slash] ++ str "top.md") then
            [slash] ++ str "top.md" else [slash]) ++ str "index.md") then
          (if fs.Stat (cfg.wwwRoot ++ [slash] ++ str "top.md") then
            [slash] ++ str "top.md" else [slash]) ++ str "index.md"
        else
          (if fs.Stat (cfg.wwwRoot ++ [slash] ++ str "top.md") then
            [slash] ++ str "top.md" else [slash])),
        [Event.Stat (cfg.wwwRoot ++ [slash] ++ str "top.md"),
          Event.Stat (cfg.wwwRoot ++ (if fs.Stat (cfg.wwwRoot ++ [slash] ++ str "top.md") then
            [slash] ++ str "top.md" else [slash]) ++ str "index.md")]) := by
  unfold resolve
  rw [h]
  have hs : HasSuffix [slash] (str "/") = true := by decide
  simp only [hs, if_true]

theorem resolve_trace_stat (cfg : Config) (fs : FileSystem) (p : GoString) :
    ∀ ev ∈ (resolve cfg fs p).2, ∃ n, ev = Event.Stat n := by
  by_cases h : Clean p = [slash]
  · rw [resolve_root cfg fs p h]
    intro ev hev
    simp only [List.mem_cons, List.mem_singleton, List.not_mem_nil, or_false] at hev
    rcases hev with rfl | rfl
    · exact ⟨_, rfl⟩
    · exact ⟨_, rfl⟩
  · rw [resolve_not_root cfg fs p h]
    intro ev hev
    simp at hev

/-! ## The branches of `ServeHTTP` -/

theorem ServeHTTP_static (cfg : Config) (fs : FileSystem) (md : GoString → GoString)
    (r : renderer) (rw : ResponseWriter) (req : Request)
    (h1 : HasSuffix (resolvedPath cfg fs req.Path) (str ".md") = false)
    (h2 : HasSuffix (resolvedPath cfg fs req.Path) (str "/guide") = false) :
    ServeHTTP cfg fs md r rw req =
      { rw := r.h rw { req with Path := resolvedPath cfg fs req.Path },
        Path := resolvedPath cfg fs req.Path,
        trace := (resolve cfg fs req.Path).2 ++
          [Event.Static (resolvedPath cfg fs req.Path)] } := by
  unfold resolvedPath at h1 h2 ⊢
  unfold ServeHTTP
  simp only [h1, h2, Bool.not_false, Bool.and_self, if_true]

theorem ServeHTTP_pathError (cfg : Config) (fs : FileSystem) (md : GoString → GoString)
    (r : renderer) (rw : ResponseWriter) (req : Request) (Op Path : GoString) (Err : Errno)
    (hmd : HasSuffix (resolvedPath cfg fs req.Path) (str ".md") = true ∨
      HasSuffix (resolvedPath cfg fs req.Path) (str "/guide") = true)
    (hread : fs.ReadFile (cfg.wwwRoot ++ resolvedPath cfg fs req.Path) =
      .error (.PathError Op Path Err)) :
    ServeHTTP cfg fs md r rw req =
      { rw := Error rw (StatusText 404 ++ str ": " ++ resolvedPath cfg fs req.Path) 404,
        Path := resolvedPath cfg fs req.Path,
        trace := (resolve cfg fs req.Path).2 ++
          [Event.ReadFile (cfg.wwwRoot ++ resolvedPath cfg fs req.Path)] ++
          [Event.Log (str "file not found: " ++ (GoError.PathError Op Path Err).Error)] } := by
  unfold resolvedPath at hmd hread ⊢
  unfold ServeHTTP
  have hc : ((!HasSuffix (resolve cfg fs req.Path).1 (str ".md")) &&
      (!HasSuffix (resolve cfg fs req.Path).1 (str "/guide"))) = false := by
    rcases hmd with h | h <;> simp [h]
  simp only [hc, hread, errorsAsPathError, Bool.false_eq_true, if_false, if_true]

theorem ServeHTTP_otherError (cfg : Config) (fs : FileSystem) (md : GoString → GoString)
    (r : renderer) (rw : ResponseWriter) (req : Request) (msg typ : GoString)
    (hmd : HasSuffix (resolvedPath cfg fs req.Path) (str ".md") = true ∨
      HasSuffix (resolvedPath cfg fs req.Path) (str "/guide") = true)
    (hread : fs.ReadFile (cfg.wwwRoot ++ resolvedPath cfg fs req.Path) =
      .error (.Other msg typ)) :
    ServeHTTP cfg fs md r rw req =
      { rw := Error rw (str "Internal Server Error: " ++ msg) 500,
        Path := resolvedPath cfg fs req.Path,
        trace := (resolve cfg fs req.Path).2 ++
          [Event.ReadFile (cfg.wwwRoot ++ resolvedPath cfg fs req.Path)] ++
          [Event.Log (req.RemoteAddr ++ str " " ++ req.Method ++ str " " ++ str "\"" ++
            resolvedPath cfg fs req.Path ++ str "\"")] ++
          [Event.Log (str "Couldn\x27t read path " ++ resolvedPath cfg fs req.Path ++
            str ": " ++ msg ++ str " (" ++ typ ++ str ")")] } := by
  unfold resolvedPath at hmd hread ⊢
  unfold ServeHTTP
  have hc : ((!HasSuffix (resolve cfg fs req.Path).1 (str ".md")) &&
      (!HasSuffix (resolve cfg fs req.Path).1 (str "/guide"))) = false := by
    rcases hmd with h | h <;> simp [h]
  simp only [hc, hread, errorsAsPathError, GoError.Error, GoError.typeName,
    Bool.false_eq_true, if_false]

theorem ServeHTTP_ok (cfg : Config) (fs : FileSystem) (md : GoString → GoString)
    (r : renderer) (rw : ResponseWriter) (req : Request) (c : GoString)
    (hmd : HasSuffix (resolvedPath cfg fs req.Path) (str ".md") = true ∨
      HasSuffix (resolvedPath cfg fs req.Path) (str "/guide") = true)
    (hread : fs.ReadFile (cfg.wwwRoot ++ resolvedPath cfg fs req.Path) = .ok c) :
    ServeHTTP cfg fs md r rw req =
      { rw := Execute (rw.Set (str "Content-Type") (str "text/html; charset=utf-8"))
          (resolvedPath cfg fs req.Path) (md c),
        Path := resolvedPath cfg fs req.Path,
        trace := (resolve cfg fs req.Path).2 ++
          [Event.ReadFile (cfg.wwwRoot ++ resolvedPath cfg fs req.Path)] ++
          [Event.Log (req.RemoteAddr ++ str " " ++ req.Method ++ str " " ++ str "\"" ++
            resolvedPath cfg fs req.Path ++ str "\"")] ++
          [Event.MarkdownCommon c, Event.Execute (resolvedPath cfg fs req.Path) (md c)] } := by
  unfold resolvedPath at hmd hread ⊢
  unfold ServeHTTP
  have hc : ((!HasSuffix (resolve cfg fs req.Path).1 (str ".md")) &&
      (!HasSuffix (resolve cfg fs req.Path).1 (str "/guide"))) = false := by
    rcases hmd with h | h <;> simp [h]
  simp only [hc, hread, errorsAsPathError, Bool.false_eq_true, if_false]

/-- In the markdown branch the static file handler is not called, whatever
the file read returns. -/
theorem ServeHTTP_markdown_no_static (cfg : Config) (fs : FileSystem)
    (md : GoString → GoString) (r : renderer) (rw : ResponseWriter) (req : Request)
    (hmd : HasSuffix (resolvedPath cfg fs req.Path) (str ".md") = true ∨
      HasSuffix (resolvedPath cfg fs req.Path) (str "/guide") = true) :
    ∀ q, Event.Static q ∉ (ServeHTTP cfg fs md r rw req).trace := by
  intro q hq
  have hst : ∀ ev ∈ (resolve cfg fs req.Path).2, ev ≠ Event.Static q := by
    intro ev hev h
    obtain ⟨n, hn⟩ := resolve_trace_stat cfg fs req.Path ev hev
    rw [hn] at h
    exact Event.noConfusion h
  cases hread : fs.ReadFile (cfg.wwwRoot ++ resolvedPath cfg fs req.Path) with
  | error e =>
    cases e with
    | PathError Op Path Err =>
      rw [ServeHTTP_pathError cfg fs md r rw req Op Path Err hmd hread] at hq
      simp only [List.mem_append, List.mem_singleton] at hq
      rcases hq with (hq | hq) | hq
      · exact hst _ hq rfl
      · exact Event.noConfusion hq
      · exact Event.noConfusion hq
    | Other msg typ =>
      rw [ServeHTTP_otherError cfg fs md r rw req msg typ hmd hread] at hq
      simp only [List.mem_append, List.mem_singleton] at hq
      rcases hq with ((hq | hq) | hq) | hq
      · exact hst _ hq rfl
      · exact Event.noConfusion hq
      · exact Event.noConfusion hq
      · exact Event.noConfusion hq
  | ok c =>
    rw [ServeHTTP_ok cfg fs md r rw req c hmd hread] at hq
    simp only [List.mem_append, List.mem_singleton, List.mem_cons, List.not_mem_nil,
      or_false] at hq
    rcases hq with ((hq | hq) | hq) | hq | hq
    · exact hst _ hq rfl
    · exact Event.noConfusion hq
    · exact Event.noConfusion hq
    · exact Event.noConfusion hq
    · exact Event.noConfusion hq

theorem Error_fresh (msg : GoString) (code : Nat) :
    (Error ResponseWriter.fresh msg code).status = some code ∧
    (Error ResponseWriter.fresh msg code).body = msg ++ str "\n" ∧
    (Error ResponseWriter.fresh msg code).Get (str "Content-Type") =
      some (str "text/plain; charset=utf-8") := by
  refine ⟨rfl, ?_, ?_⟩
  · simp [Error, ResponseWriter.Write, ResponseWriter.WriteHeader, ResponseWriter.Set,
      ResponseWriter.fresh]
  · rfl

theorem Execute_fresh (Path Body : GoString) :
    (Execute (ResponseWriter.fresh.Set (str "Content-Type")
      (str "text/html; charset=utf-8")) Path Body).status = some 200 ∧
    (Execute (ResponseWriter.fresh.Set (str "Content-Type")
      (str "text/html; charset=utf-8")) Path Body).body =
        templateHead ++ rcdataEscaper Path ++ templateMiddle ++ Body ++ templateTail ∧
    (Execute (ResponseWriter.fresh.Set (str "Content-Type")
      (str "text/html; charset=utf-8")) Path Body).Get (str "Content-Type") =
        some (str "text/html; charset=utf-8") := by
  refine ⟨rfl, ?_, ?_⟩
  · simp [Execute, ResponseWriter.Write, ResponseWriter.WriteHeader, ResponseWriter.Set,
      ResponseWriter.fresh]
  · rfl

theorem rcdataEscaper_plain (s : GoString) (h : ∀ b ∈ s, htmlReplacementTable b = none) :
    rcdataEscaper s = s := by
  induction s with
  | nil => rfl
  | cons b s ih =>
    rw [rcdataEscaper, h b (List.mem_cons_self _ _),
      ih (fun x hx => h x (List.mem_cons_of_mem _ hx))]

theorem ServeHTTP_trace_files (cfg : Config) (fs : FileSystem) (md : GoString → GoString)
    (r : renderer) (rw : ResponseWriter) (req : Request) (n : GoString) :
    (Event.Stat n ∈ (ServeHTTP cfg fs md r rw req).trace →
      Event.Stat n ∈ (resolve cfg fs req.Path).2) ∧
    (Event.ReadFile n ∈ (ServeHTTP cfg fs md r rw req).trace →
      n = cfg.wwwRoot ++ resolvedPath cfg fs req.Path) := by
  have hst : Event.ReadFile n ∉ (resolve cfg fs req.Path).2 := by
    intro h
    obtain ⟨m, hm⟩ := resolve_trace_stat cfg fs req.Path _ h
    exact Event.noConfusion hm
  by_cases hmd : HasSuffix (resolvedPath cfg fs req.Path) (str ".md") = true ∨
      HasSuffix (resolvedPath cfg fs req.Path) (str "/guide") = true
  · cases hread : fs.ReadFile (cfg.wwwRoot ++ resolvedPath cfg fs req.Path) with
    | error e =>
      cases e with
      | PathError Op Path Err =>
        rw [ServeHTTP_pathError cfg fs md r rw req Op Path Err hmd hread]
        simp only [List.mem_append, List.mem_singleton]
        constructor
        · rintro ((h | h) | h)
          · exact h
          · exact Event.noConfusion h
          · exact Event.noConfusion h
        · rintro ((h | h) | h)
          · exact absurd h hst
          · injection h
          · exact Event.noConfusion h
      | Other msg typ =>
        rw [ServeHTTP_otherError cfg fs md r rw req msg typ hmd hread]
        simp only [List.mem_append, List.mem_singleton]
        constructor
        · rintro (((h | h) | h) | h)
          · exact h
          · exact Event.noConfusion h
          · exact Event.noConfusion h
          · exact Event.noConfusion h
        · rintro (((h | h) | h) | h)
          · exact absurd h hst
          · injection h
          · exact Event.noConfusion h
          · exact Event.noConfusion h
    | ok c =>
      rw [ServeHTTP_ok cfg fs md r rw req c hmd hread]
      simp only [List.mem_append, List.mem_singleton, List.mem_cons, List.not_mem_nil,
        or_false]
      constructor
      · rintro (((h | h) | h) | h | h)
        · exact h
        · exact Event.noConfusion h
        · exact Event.noConfusion h
        · exact Event.noConfusion h
        · exact Event.noConfusion h
      · rintro (((h | h) | h) | h | h)
        · exact absurd h hst
        · injection h
        · exact Event.noConfusion h
        · exact Event.noConfusion h
        · exact Event.noConfusion h
  · have h1 : HasSuffix (resolvedPath cfg fs req.Path) (str ".md") = false := by
      cases h : HasSuffix (resolvedPath cfg fs req.Path) (str ".md") with
      | false => rfl
      | true => exact absurd (Or.inl h) hmd
    have h2 : HasSuffix (resolvedPath cfg fs req.Path) (str "/guide") = false := by
      cases h : HasSuffix (resolvedPath cfg fs req.Path) (str "/guide") with
      | false => rfl
      | true => exact absurd (Or.inr h) hmd
    rw [ServeHTTP_static cfg fs md r rw req h1 h2]
    simp only [List.mem_append, List.mem_singleton]
    constructor
    · rintro (h | h)
      · exact h
      · exact Event.noConfusion h
    · rintro (h | h)
      · exact absurd h hst
      · exact Event.noConfusion h

theorem Clean_dir (d : GoString) (hd : IsName d) :
    Clean (str "/" ++ d ++ str "/") = str "/" ++ d := by
  have hform : str "/" ++ d ++ str "/" = slash :: joinElems [d, []] := by
    simp [str_slash, joinElems, tailJoin]
  rw [hform]
  unfold Clean
  rw [if_neg (by simp)]
  simp only [List.head?_cons, decide_True, if_true, List.tail_cons]
  rw [cleanLoop_joinElems true [d, []] _ [slash] 1
    (by
      intro x hx
      simp only [List.mem_cons, List.mem_singleton, List.not_mem_nil, or_false] at hx
      rcases hx with rfl | rfl
      · exact hd.2.1
      · simp)
    (by simp)]
  have h1 := stepR_name [] d (by simp) hd
  rw [show joinElems ([] : List GoString) = [] from rfl] at h1
  simp only [List.foldl_cons, List.foldl_nil, h1, stepElem_nil, List.nil_append,
    joinElems_single]
  simp [str_slash]

/-! ## The claims -/

/-- C1: `ServeHTTP` calls the static file handler if and only if the resolved
path ends neither in `.md` nor in `/guide`, whatever the file system returns;
when it calls it, the response is the one of the static handler for the
resolved path, and no file is read, nothing is converted and nothing is
rendered. -/
theorem ServeHTTP_delegates_iff (cfg : Config) (fs : FileSystem) (md : GoString → GoString)
    (r : renderer) (rw : ResponseWriter) (req : Request) :
    ((∃ q, Event.Static q ∈ (ServeHTTP cfg fs md r rw req).trace) ↔
      (HasSuffix (resolvedPath cfg fs req.Path) (str ".md") = false ∧
        HasSuffix (resolvedPath cfg fs req.Path) (str "/guide") = false)) ∧
    ((∃ q, Event.Static q ∈ (ServeHTTP cfg fs md r rw req).trace) →
      (ServeHTTP cfg fs md r rw req).rw =
          r.h rw { req with Path := resolvedPath cfg fs req.Path } ∧
        (∀ n, Event.ReadFile n ∉ (ServeHTTP cfg fs md r rw req).trace) ∧
        (∀ i, Event.MarkdownCommon i ∉ (ServeHTTP cfg fs md r rw req).trace) ∧
        (∀ a b, Event.Execute a b ∉ (ServeHTTP cfg fs md r rw req).trace)) := by
  have key : (∃ q, Event.Static q ∈ (ServeHTTP cfg fs md r rw req).trace) →
      (HasSuffix (resolvedPath cfg fs req.Path) (str ".md") = false ∧
        HasSuffix (resolvedPath cfg fs req.Path) (str "/guide") = false) := by
    rintro ⟨q, hq⟩
    constructor
    · cases h : HasSuffix (resolvedPath cfg fs req.Path) (str ".md") with
      | false => rfl
      | true => exact absurd hq (ServeHTTP_markdown_no_static cfg fs md r rw req (Or.inl h) q)
    · cases h : HasSuffix (resolvedPath cfg fs req.Path) (str "/guide") with
      | false => rfl
      | true => exact absurd hq (ServeHTTP_markdown_no_static cfg fs md r rw req (Or.inr h) q)
  have hst : ∀ ev ∈ (resolve cfg fs req.Path).2, ∃ n, ev = Event.Stat n :=
    resolve_trace_stat cfg fs req.Path
  refine ⟨⟨key, ?_⟩, ?_⟩
  · rintro ⟨h1, h2⟩
    rw [ServeHTTP_static cfg fs md r rw req h1 h2]
    exact ⟨resolvedPath cfg fs req.Path,
      List.mem_append_right _ (List.mem_singleton_self _)⟩
  · intro hex
    obtain ⟨h1, h2⟩ := key hex
    rw [ServeHTTP_static cfg fs md r rw req h1 h2]
    refine ⟨rfl, ?_, ?_, ?_⟩
    · intro n hn
      simp only [List.mem_append, List.mem_singleton] at hn
      rcases hn with hn | hn
      · obtain ⟨m, hm⟩ := hst _ hn
        exact Event.noConfusion hm
      · exact Event.noConfusion hn
    · intro i hn
      simp only [List.mem_append, List.mem_singleton] at hn
      rcases hn with hn | hn
      · obtain ⟨m, hm⟩ := hst _ hn
        exact Event.noConfusion hm
      · exact Event.noConfusion hn
    · intro a b hn
      simp only [List.mem_append, List.mem_singleton] at hn
      rcases hn with hn | hn
      · obtain ⟨m, hm⟩ := hst _ hn
        exact Event.noConfusion hm
      · exact Event.noConfusion hn

/-- Witness of C1 at the request `/style.css`: the static handler is called
and nothing is read or rendered. -/
theorem ServeHTTP_delegates_iff_witness :
    (HasSuffix (resolvedPath exampleCfg (filesOf []) (getRequest (str "/style.css")).Path)
        (str ".md") = false ∧
      HasSuffix (resolvedPath exampleCfg (filesOf []) (getRequest (str "/style.css")).Path)
        (str "/guide") = false) ∧
    (∃ q, Event.Static q ∈ (ServeHTTP exampleCfg (filesOf []) exampleMarkdown exampleRenderer
      ResponseWriter.fresh (getRequest (str "/style.css"))).trace) ∧
    ∀ n, Event.ReadFile n ∉ (ServeHTTP exampleCfg (filesOf []) exampleMarkdown exampleRenderer
      ResponseWriter.fresh (getRequest (str "/style.css"))).trace :=
  ⟨⟨by decide, by decide⟩,
    (ServeHTTP_delegates_iff exampleCfg (filesOf []) exampleMarkdown exampleRenderer
      ResponseWriter.fresh (getRequest (str "/style.css"))).1.mpr ⟨by decide, by decide⟩,
    ((ServeHTTP_delegates_iff exampleCfg (filesOf []) exampleMarkdown exampleRenderer
      ResponseWriter.fresh (getRequest (str "/style.css"))).2
      ((ServeHTTP_delegates_iff exampleCfg (filesOf []) exampleMarkdown exampleRenderer
        ResponseWriter.fresh (getRequest (str "/style.css"))).1.mpr
          ⟨by decide, by decide⟩)).2.1⟩

/-- C2 (what the code does): with both `docs/top.md` and `docs/index.md` under
the root, the request path `/docs/` resolves to `/docs`, not to
`/docs/index.md`, and the request goes to the static handler; for the root
request `/` with both `top.md` and `index.md`, the resolved path is `/top.md`. -/
theorem docs_both_index_files_not_rewritten :
    resolvedPath exampleCfg
        (filesOf [(str "/srv/docs/top.md", str "# Top"), (str "/srv/docs/index.md", str "# Index")])
        (str "/docs/") = str "/docs" ∧
    (ServeHTTP exampleCfg
        (filesOf [(str "/srv/docs/top.md", str "# Top"), (str "/srv/docs/index.md", str "# Index")])
        exampleMarkdown exampleRenderer ResponseWriter.fresh (getRequest (str "/docs/"))).trace =
      [Event.Static (str "/docs")] ∧
    resolvedPath exampleCfg
        (filesOf [(str "/srv/top.md", str "# Top"), (str "/srv/index.md", str "# Index")])
        (str "/") = str "/top.md" := by
  decide

/-- C3 (what the code does): with `docs/top.md` under the root and no
`docs/index.md`, the request path `/docs/` resolves to `/docs` and the request
goes to the static handler, no markdown is rendered; the same files at the
root, requested as `/`, resolve to `/top.md`. -/
theorem docs_top_only_not_rewritten :
    resolvedPath exampleCfg (filesOf [(str "/srv/docs/top.md", str "# Top")])
        (str "/docs/") = str "/docs" ∧
    (ServeHTTP exampleCfg (filesOf [(str "/srv/docs/top.md", str "# Top")])
        exampleMarkdown exampleRenderer ResponseWriter.fresh (getRequest (str "/docs/"))).trace =
      [Event.Static (str "/docs")] ∧
    resolvedPath exampleCfg (filesOf [(str "/srv/top.md", str "# Top")])
        (str "/") = str "/top.md" := by
  decide

/-- C4 (amended): when the resolved path `p` ends in `.md` or `/guide` and
reading `wwwRoot + p` fails because the file does not exist, the response has
status 404, content type `text/plain; charset=utf-8` and the body
`Not Found: ` followed by the resolved path `p` and a newline; nothing is
converted or rendered and the static handler is not called. -/
theorem ServeHTTP_not_found (cfg : Config) (fs : FileSystem) (md : GoString → GoString)
    (r : renderer) (req : Request) (e : GoError)
    (hmd : HasSuffix (resolvedPath cfg fs req.Path) (str ".md") = true ∨
      HasSuffix (resolvedPath cfg fs req.Path) (str "/guide") = true)
    (hread : fs.ReadFile (cfg.wwwRoot ++ resolvedPath cfg fs req.Path) = .error e)
    (hne : e.IsNotExist = true) :
    (ServeHTTP cfg fs md r ResponseWriter.fresh req).rw.status = some 404 ∧
    (ServeHTTP cfg fs md r ResponseWriter.fresh req).rw.body =
      str "Not Found" ++ str ": " ++ resolvedPath cfg fs req.Path ++ str "\n" ∧
    (ServeHTTP cfg fs md r ResponseWriter.fresh req).rw.Get (str "Content-Type") =
      some (str "text/plain; charset=utf-8") ∧
    (∀ i, Event.MarkdownCommon i ∉ (ServeHTTP cfg fs md r ResponseWriter.fresh req).trace) ∧
    (∀ a b, Event.Execute a b ∉ (ServeHTTP cfg fs md r ResponseWriter.fresh req).trace) ∧
    (∀ q, Event.Static q ∉ (ServeHTTP cfg fs md r ResponseWriter.fresh req).trace) := by
  have hst : ∀ ev ∈ (resolve cfg fs req.Path).2, ∃ n, ev = Event.Stat n :=
    resolve_trace_stat cfg fs req.Path
  cases e with
  | Other msg typ => exact absurd hne (by simp [GoError.IsNotExist])
  | PathError Op Path Err =>
    have hno := ServeHTTP_markdown_no_static cfg fs md r ResponseWriter.fresh req hmd
    rw [ServeHTTP_pathError cfg fs md r ResponseWriter.fresh req Op Path Err hmd hread] at hno ⊢
    obtain ⟨h1, h2, h3⟩ :=
      Error_fresh (StatusText 404 ++ str ": " ++ resolvedPath cfg fs req.Path) 404
    refine ⟨h1, h2, h3, ?_, ?_, hno⟩
    · intro i hn
      simp only [List.mem_append, List.mem_singleton] at hn
      rcases hn with (hn | hn) | hn
      · obtain ⟨m, hm⟩ := hst _ hn
        exact Event.noConfusion hm
      · exact Event.noConfusion hn
      · exact Event.noConfusion hn
    · intro a b hn
      simp only [List.mem_append, List.mem_singleton] at hn
      rcases hn with (hn | hn) | hn
      · obtain ⟨m, hm⟩ := hst _ hn
        exact Event.noConfusion hm
      · exact Event.noConfusion hn
      · exact Event.noConfusion hn

/-- Witness of C4 (amended) at the request `/missing.md` on an empty root. -/
theorem ServeHTTP_not_found_witness :
    HasSuffix (resolvedPath exampleCfg (filesOf []) (getRequest (str "/missing.md")).Path)
      (str ".md") = true ∧
    (ServeHTTP exampleCfg (filesOf []) exampleMarkdown exampleRenderer ResponseWriter.fresh
      (getRequest (str "/missing.md"))).rw.status = some 404 ∧
    (ServeHTTP exampleCfg (filesOf []) exampleMarkdown exampleRenderer ResponseWriter.fresh
      (getRequest (str "/missing.md"))).rw.body =
        str "Not Found" ++ str ": " ++
          resolvedPath exampleCfg (filesOf []) (getRequest (str "/missing.md")).Path ++
          str "\n" :=
  ⟨by decide,
    (ServeHTTP_not_found exampleCfg (filesOf []) exampleMarkdown exampleRenderer
      (getRequest (str "/missing.md"))
      (.PathError (str "open") (str "/srv/missing.md") .ENOENT)
      (Or.inl (by decide)) rfl (by decide)).1,
    (ServeHTTP_not_found exampleCfg (filesOf []) exampleMarkdown exampleRenderer
      (getRequest (str "/missing.md"))
      (.PathError (str "open") (str "/srv/missing.md") .ENOENT)
      (Or.inl (by decide)) rfl (by decide)).2.1⟩

/-- C4 as stated fails: for the request path `/x/../missing.md` on an empty
root the resolved path `/missing.md` ends in `.md` and its file does not
exist, the status is 404, and the body is `Not Found: /missing.md`, which does
not contain the request path. -/
theorem not_found_body_has_resolved_path :
    HasSuffix (resolvedPath exampleCfg (filesOf []) (str "/x/../missing.md")) (str ".md") = true ∧
    (filesOf []).ReadFile
        (exampleCfg.wwwRoot ++ resolvedPath exampleCfg (filesOf []) (str "/x/../missing.md")) =
      .error (.PathError (str "open") (str "/srv/missing.md") .ENOENT) ∧
    GoError.IsNotExist (.PathError (str "open") (str "/srv/missing.md") .ENOENT) = true ∧
    (ServeHTTP exampleCfg (filesOf []) exampleMarkdown exampleRenderer ResponseWriter.fresh
      (getRequest (str "/x/../missing.md"))).rw.status = some 404 ∧
    (ServeHTTP exampleCfg (filesOf []) exampleMarkdown exampleRenderer ResponseWriter.fresh
      (getRequest (str "/x/../missing.md"))).rw.body = str "Not Found: /missing.md\n" ∧
    ¬ (str "/x/../missing.md" <:+:
      (ServeHTTP exampleCfg (filesOf []) exampleMarkdown exampleRenderer ResponseWriter.fresh
        (getRequest (str "/x/../missing.md"))).rw.body) :=
  ⟨by decide, rfl, by decide, by decide, by decide, by decide⟩

/-- C5 (what the code does): a file that exists and cannot be read
(`open /srv/secret.md: permission denied`, not a missing file) is answered
with status 404 and the body `Not Found: /secret.md`, not with status 500. -/
theorem permission_denied_answers_404 :
    HasSuffix (resolvedPath exampleCfg unreadableFs (str "/secret.md")) (str ".md") = true ∧
    unreadableFs.ReadFile
        (exampleCfg.wwwRoot ++ resolvedPath exampleCfg unreadableFs (str "/secret.md")) =
      .error (.PathError (str "open") (str "/srv/secret.md") .EACCES) ∧
    GoError.IsNotExist (.PathError (str "open") (str "/srv/secret.md") .EACCES) = false ∧
    (ServeHTTP exampleCfg unreadableFs exampleMarkdown exampleRenderer ResponseWriter.fresh
      (getRequest (str "/secret.md"))).rw.status = some 404 ∧
    (ServeHTTP exampleCfg unreadableFs exampleMarkdown exampleRenderer ResponseWriter.fresh
      (getRequest (str "/secret.md"))).rw.body = str "Not Found: /secret.md\n" :=
  ⟨by decide, rfl, by decide, by decide, by decide⟩

/-- C6: when the resolved path `p` ends in `.md` or `/guide` and `wwwRoot + p`
is read with contents `c`, the response has status 200, content type
`text/html; charset=utf-8`, and its body is the page template with `p`, escaped
for the `<title>` element, as title and `MarkdownCommon c` as body; when `p`
has no byte that the escaper replaces, the title is `p` byte for byte. -/
theorem ServeHTTP_renders (cfg : Config) (fs : FileSystem) (md : GoString → GoString)
    (r : renderer) (req : Request) (c : GoString)
    (hmd : HasSuffix (resolvedPath cfg fs req.Path) (str ".md") = true ∨
      HasSuffix (resolvedPath cfg fs req.Path) (str "/guide") = true)
    (hread : fs.ReadFile (cfg.wwwRoot ++ resolvedPath cfg fs req.Path) = .ok c) :
    (ServeHTTP cfg fs md r ResponseWriter.fresh req).rw.status = some 200 ∧
    (ServeHTTP cfg fs md r ResponseWriter.fresh req).rw.Get (str "Content-Type") =
      some (str "text/html; charset=utf-8") ∧
    (ServeHTTP cfg fs md r ResponseWriter.fresh req).rw.body =
      templateHead ++ rcdataEscaper (resolvedPath cfg fs req.Path) ++ templateMiddle ++
        md c ++ templateTail ∧
    ((∀ b ∈ resolvedPath cfg fs req.Path, htmlReplacementTable b = none) →
      (ServeHTTP cfg fs md r ResponseWriter.fresh req).rw.body =
        templateHead ++ resolvedPath cfg fs req.Path ++ templateMiddle ++
          md c ++ templateTail) := by
  rw [ServeHTTP_ok cfg fs md r ResponseWriter.fresh req c hmd hread]
  obtain ⟨h1, h2, h3⟩ := Execute_fresh (resolvedPath cfg fs req.Path) (md c)
  refine ⟨h1, h3, h2, ?_⟩
  intro hplain
  rw [h2, rcdataEscaper_plain _ hplain]

/-- Witness of C6 at the request `/page.md` for a file holding `# Hello`: the
body holds the title `/page.md` and the converted heading. -/
theorem ServeHTTP_renders_witness :
    HasSuffix (resolvedPath exampleCfg (filesOf [(str "/srv/page.md", str "# Hello")])
      (getRequest (str "/page.md")).Path) (str ".md") = true ∧
    (ServeHTTP exampleCfg (filesOf [(str "/srv/page.md", str "# Hello")]) exampleMarkdown
      exampleRenderer ResponseWriter.fresh (getRequest (str "/page.md"))).rw.status =
        some 200 ∧
    (ServeHTTP exampleCfg (filesOf [(str "/srv/page.md", str "# Hello")]) exampleMarkdown
      exampleRenderer ResponseWriter.fresh (getRequest (str "/page.md"))).rw.body =
        templateHead ++
          resolvedPath exampleCfg (filesOf [(str "/srv/page.md", str "# Hello")])
            (getRequest (str "/page.md")).Path ++
          templateMiddle ++ exampleMarkdown (str "# Hello") ++ templateTail ∧
    resolvedPath exampleCfg (filesOf [(str "/srv/page.md", str "# Hello")])
      (getRequest (str "/page.md")).Path = str "/page.md" ∧
    exampleMarkdown (str "# Hello") = str "<h1>Hello</h1>\n" :=
  ⟨by decide,
    (ServeHTTP_renders exampleCfg (filesOf [(str "/srv/page.md", str "# Hello")])
      exampleMarkdown exampleRenderer (getRequest (str "/page.md")) (str "# Hello")
      (Or.inl (by decide)) rfl).1,
    (ServeHTTP_renders exampleCfg (filesOf [(str "/srv/page.md", str "# Hello")])
      exampleMarkdown exampleRenderer (getRequest (str "/page.md")) (str "# Hello")
      (Or.inl (by decide)) rfl).2.2.2 (by decide),
    by decide, by decide⟩

/-- C7: `path.Clean` is idempotent, and `/a/b/../c` and `/a/c` both clean to
`/a/c`. -/
theorem Clean_idempotent :
    (∀ p : GoString, Clean (Clean p) = Clean p) ∧
    Clean (str "/a/b/../c") = str "/a/c" ∧ Clean (str "/a/c") = str "/a/c" :=
  ⟨Clean_fixed, by decide, by decide⟩

/-- C8 (what the code does): for the request `/` with both `top.md` and
`index.md` under the root, the second check stats `/srv/top.mdindex.md`, and
the resolved path is `/top.md`, not `/index.md`. -/
theorem root_both_index_files_top_wins :
    HasSuffix (Clean (str "/")) (str "/") = true ∧
    resolve exampleCfg
        (filesOf [(str "/srv/top.md", str "# Top"), (str "/srv/index.md", str "# Index")])
        (str "/") =
      (str "/top.md",
        [Event.Stat (str "/srv/top.md"), Event.Stat (str "/srv/top.mdindex.md")]) := by
  decide

/-- C9: a cleaned path ends with `/` only if it is `/`; if the cleaned path is
not `/`, the index rewrite makes no `os.Stat` call and the resolved path is
the cleaned path, whatever the file system holds; for a directory name `d`
(a real path element: non-empty, without slash, other than `.` and `..`) the
request path `/d/` resolves to `/d`. -/
theorem Clean_trailing_slash_only_root (cfg : Config) (fs : FileSystem) (p d : GoString) :
    (HasSuffix (Clean p) (str "/") = true → Clean p = str "/") ∧
    (Clean p ≠ str "/" → resolve cfg fs p = (Clean p, [])) ∧
    (IsName d → resolvedPath cfg fs (str "/" ++ d ++ str "/") = str "/" ++ d) := by
  refine ⟨?_, ?_, ?_⟩
  · intro h
    exact isClean_slash_suffix _ (Clean_isClean p) h
  · intro h
    exact resolve_not_root cfg fs p h
  · intro hd
    have hc := Clean_dir d hd
    have hne : Clean (str "/" ++ d ++ str "/") ≠ [slash] := by
      rw [hc, str_slash]
      intro h
      injection h with _ h
      exact hd.1 h
    unfold resolvedPath
    rw [resolve_not_root cfg fs _ hne, hc]

/-- Witness of C9: `//` cleans to `/`; `/docs/` cleans to `/docs`, and
resolves to `/docs` although `docs/top.md` and `docs/index.md` exist. -/
theorem Clean_trailing_slash_only_root_witness :
    (HasSuffix (Clean (str "//")) (str "/") = true ∧ Clean (str "//") = str "/") ∧
    (Clean (str "/docs/") ≠ str "/" ∧
      resolve exampleCfg
          (filesOf [(str "/srv/docs/top.md", str "# Top"),
            (str "/srv/docs/index.md", str "# Index")])
          (str "/docs/") = (Clean (str "/docs/"), [])) ∧
    (IsName (str "docs") ∧
      resolvedPath exampleCfg
          (filesOf [(str "/srv/docs/top.md", str "# Top"),
            (str "/srv/docs/index.md", str "# Index")])
          (str "/" ++ str "docs" ++ str "/") = str "/" ++ str "docs") :=
  ⟨⟨by decide,
      (Clean_trailing_slash_only_root exampleCfg (filesOf []) (str "//") []).1 (by decide)⟩,
    ⟨by decide,
      (Clean_trailing_slash_only_root exampleCfg
        (filesOf [(str "/srv/docs/top.md", str "# Top"),
          (str "/srv/docs/index.md", str "# Index")])
        (str "/docs/") []).2.1 (by decide)⟩,
    ⟨by decide,
      (Clean_trailing_slash_only_root exampleCfg
        (filesOf [(str "/srv/docs/top.md", str "# Top"),
          (str "/srv/docs/index.md", str "# Index")])
        [] (str "docs")).2.2 (by decide)⟩⟩

/-- C10: for a request path that begins with `/`, the resolved path begins
with `/` and has no `.` or `..` element, and every name passed to `os.Stat` or
`os.ReadFile` is `wwwRoot` followed by a path that begins with `/` and has no
`.` or `..` element. -/
theorem resolvedPath_rooted_noDots (cfg : Config) (fs : FileSystem)
    (md : GoString → GoString) (r : renderer) (rw : ResponseWriter) (req : Request)
    (hroot : req.Path.head? = some slash) :
    IsRootedNoDots (resolvedPath cfg fs req.Path) ∧
    ∀ n, (Event.Stat n ∈ (ServeHTTP cfg fs md r rw req).trace ∨
        Event.ReadFile n ∈ (ServeHTTP cfg fs md r rw req).trace) →
      ∃ q, n = cfg.wwwRoot ++ q ∧ IsRootedNoDots q := by
  have hres : IsRootedNoDots (resolvedPath cfg fs req.Path) ∧
      ∀ n, Event.Stat n ∈ (resolve cfg fs req.Path).2 →
        ∃ q, n = cfg.wwwRoot ++ q ∧ IsRootedNoDots q := by
    by_cases hc : Clean req.Path = [slash]
    · unfold resolvedPath
      rw [resolve_root cfg fs req.Path hc]
      cases h1 : fs.Stat (cfg.wwwRoot ++ [slash] ++ str "top.md") <;>
        simp only [Bool.false_eq_true, if_false, if_true]
      · cases h2 : fs.Stat (cfg.wwwRoot ++ [slash] ++ str "index.md") <;>
          simp only [Bool.false_eq_true, if_false, if_true]
        · refine ⟨by decide, ?_⟩
          intro n hn
          simp only [List.mem_cons, List.mem_singleton, List.not_mem_nil, or_false] at hn
          rcases hn with hn | hn
          · injection hn with hn
            exact ⟨[slash] ++ str "top.md", by rw [hn, List.append_assoc], by decide⟩
          · injection hn with hn
            exact ⟨[slash] ++ str "index.md", by rw [hn, List.append_assoc], by decide⟩
        · refine ⟨by decide, ?_⟩
          intro n hn
          simp only [List.mem_cons, List.mem_singleton, List.not_mem_nil, or_false] at hn
          rcases hn with hn | hn
          · injection hn with hn
            exact ⟨[slash] ++ str "top.md", by rw [hn, List.append_assoc], by decide⟩
          · injection hn with hn
            exact ⟨[slash] ++ str "index.md", by rw [hn, List.append_assoc], by decide⟩
      · cases h2 : fs.Stat (cfg.wwwRoot ++ ([slash] ++ str "top.md") ++ str "index.md") <;>
          simp only [Bool.false_eq_true, if_false, if_true]
        · refine ⟨by decide, ?_⟩
          intro n hn
          simp only [List.mem_cons, List.mem_singleton, List.not_mem_nil, or_false] at hn
          rcases hn with hn | hn
          · injection hn with hn
            exact ⟨[slash] ++ str "top.md", by rw [hn, List.append_assoc], by decide⟩
          · injection hn with hn
            exact ⟨[slash] ++ str "top.md" ++ str "index.md",
              by rw [hn, List.append_assoc], by decide⟩
        · refine ⟨by decide, ?_⟩
          intro n hn
          simp only [List.mem_cons, List.mem_singleton, List.not_mem_nil, or_false] at hn
          rcases hn with hn | hn
          · injection hn with hn
            exact ⟨[slash] ++ str "top.md", by rw [hn, List.append_assoc], by decide⟩
          · injection hn with hn
            exact ⟨[slash] ++ str "top.md" ++ str "index.md",
              by rw [hn, List.append_assoc], by decide⟩
    · unfold resolvedPath
      rw [resolve_not_root cfg fs req.Path hc]
      refine ⟨Clean_rooted_noDots req.Path hroot, ?_⟩
      intro n hn
      simp at hn
  refine ⟨hres.1, ?_⟩
  intro n hn
  have hfiles := ServeHTTP_trace_files cfg fs md r rw req n
  rcases hn with hn | hn
  · exact hres.2 n (hfiles.1 hn)
  · exact ⟨resolvedPath cfg fs req.Path, hfiles.2 hn, hres.1⟩

/-- Witness of C10 at the request `/a/../../etc/passwd.md`: the file read is
`/srv/etc/passwd.md`. -/
theorem resolvedPath_rooted_noDots_witness :
    (getRequest (str "/a/../../etc/passwd.md")).Path.head? = some slash ∧
    IsRootedNoDots (resolvedPath exampleCfg (filesOf [])
      (getRequest (str "/a/../../etc/passwd.md")).Path) ∧
    resolvedPath exampleCfg (filesOf []) (getRequest (str "/a/../../etc/passwd.md")).Path =
      str "/etc/passwd.md" ∧
    Event.ReadFile (str "/srv/etc/passwd.md") ∈
      (ServeHTTP exampleCfg (filesOf []) exampleMarkdown exampleRenderer ResponseWriter.fresh
        (getRequest (str "/a/../../etc/passwd.md"))).trace :=
  ⟨by decide,
    (resolvedPath_rooted_noDots exampleCfg (filesOf []) exampleMarkdown exampleRenderer
      ResponseWriter.fresh (getRequest (str "/a/../../etc/passwd.md")) (by decide)).1,
    by decide, by decide⟩

end Markdir
